import Mathlib

/-!
# Akumuli Prometheus adapter: the TSDB connection and its affinity pool

A shallow embedding of `main.go`: the `tsdbConn` connection with its three
goroutines (`reconnect`, `run`, `startReadAsync`), the caller entry points
`Write` and `Close`, and the `tsdbConnPool` registry.

Goroutines are embedded as program counters over the statements of the Go
functions; one `step` executes one statement of one goroutine, so a schedule
(a list of actions) is an interleaving.  Channels are bounded FIFO lists, a
send on a full channel or a receive on an empty one is a step that is not
enabled.  Sockets are handles into a table of dialled sockets.
-/

namespace Tsdb

/-! ## Data model -/

/-- A non-nil byte slice. -/
abbrev Bytes := List Nat

/-- A `time.Duration`, and also a point in time, in abstract ticks. -/
abbrev Duration := Nat

/-- Go `int` arithmetic on a 64-bit platform: results wrap into
`[-2^63, 2^63)`. -/
def wrapInt (i : Int) : Int :=
  (i + 2 ^ 63) % 2 ^ 64 - 2 ^ 63

/-- One dialled TCP socket as seen through `net.Conn`. -/
structure Sock where
  isOpen : Bool
  writeDeadline : Option Duration
deriving DecidableEq, Repr

/-- What the outside world and the logger observe, in order. -/
inductive Event where
  | slept (d : Duration)
  | dialOk (sock : Nat)
  | dialFailed
  | sockWrite (sock : Nat) (data : Bytes)
  | sockWriteFailed (sock : Nat) (data : Bytes)
  | sockClose (sock : Nat)
  | logStopping
  | logConnError
  | logConnOk
  | logReadError
  | logDbError
  | logWriteError
deriving DecidableEq, Repr

/-- The Go struct `tsdbConn`.  `conn` is the `net.Conn` interface value
(`none` is the nil interface), `writeChan` holds `[]byte` values (`none` is
the nil slice), both channels are listed oldest entry first. -/
structure tsdbConn where
  conn : Option Nat
  writeTimeout : Duration
  connectTimeout : Duration
  connected : Bool
  writeChan : List (Option Bytes)
  reconnectChan : List Int
  addr : String
deriving DecidableEq, Repr

/-- Capacity of `writeChan`: `make(chan []byte, 100)`. -/
def writeChanCap : Nat := 100

/-- Capacity of `reconnectChan`: `make(chan int, 10)`. -/
def reconnectChanCap : Nat := 10

/-- Program counter of the `reconnect` goroutine, with `connect` inlined.
Each constructor names the statement executed next. -/
inductive SupPC where
  | recv
  | checkConnected (ix : Int)
  | closeOld (ix : Int)
  | clearConnected (ix : Int)
  | sleep (ix : Int)
  | dial (ix : Int)
  | assignConn (ix : Int) (c : Nat)
  | setConnected (ix : Int)
  | setDisconnected (ix : Int)
  | logError (ix : Int)
  | requeue (ix : Int)
  | logOk
  | goRun
  | goRead
deriving DecidableEq, Repr

/-- Program counter of one `run` goroutine. -/
inductive RunPC where
  | recv
  | write (buf : Bytes)
deriving DecidableEq, Repr

/-- Program counter of one `startReadAsync` goroutine. -/
inductive ReadPC where
  | start
  | reading (sock : Nat)
  | pushNil
  | closeSock
  | clearConnected
  | rearm
deriving DecidableEq, Repr

/-- Program counter of one in-flight call of `Close`. -/
inductive ClosePC where
  | pushStop
  | pushNil
  | closeSock
  | clearConnected
deriving DecidableEq, Repr

/-- Outcome the network gives to one `net.Conn.Write`: accepted, failed, or
the peer does not take the data. -/
inductive WriteOutcome where
  | ok
  | fail
  | stall
deriving DecidableEq, Repr

/-- Result of one `net.Conn.Write` as the caller sees it. -/
inductive WriteResult where
  | nilDeref
  | blocked
  | err (sock : Nat)
  | ok (sock : Nat)
deriving DecidableEq, Repr

/-- One connection together with its goroutines and its environment. -/
structure Sys where
  c : tsdbConn
  socks : List Sock
  now : Duration
  events : List Event
  sup : Option SupPC
  runs : List RunPC
  readers : List ReadPC
  closers : List ClosePC
  panicked : Bool
deriving DecidableEq, Repr

/-- One scheduling decision: which goroutine executes its next statement, and
what the environment answers where the statement asks it. -/
inductive Action where
  | sup (dialOk : Bool)
  | run (i : Nat) (out : WriteOutcome)
  | read (i : Nat) (err : Bool)
  | close (i : Nat)
  | callClose
  | write (data : Option Bytes)
deriving DecidableEq, Repr

/-! ## Channels and sockets -/

/-- Send on a buffered channel: enabled only below capacity. -/
def chanSend {α : Type} (cap : Nat) (q : List α) (v : α) : Option (List α) :=
  if q.length < cap then some (q ++ [v]) else none

/-- Is the socket with this handle open. -/
def sockOpen (socks : List Sock) (h : Nat) : Bool :=
  match socks[h]? with
  | some k => k.isOpen
  | none => false

/-- Closing of a socket: `net.Conn.Close` (closing a closed socket only returns an error). -/
def closeAt : List Sock → Nat → List Sock
  | [], _ => []
  | k :: rest, 0 => { k with isOpen := false } :: rest
  | k :: rest, h + 1 => k :: closeAt rest h

/-- Number of dialled sockets that are open. -/
def openCount (socks : List Sock) : Nat :=
  socks.countP (fun k => k.isOpen)

/-- Go `net.Conn.Write` on the interface value `h`: a nil interface panics, a
closed socket fails, a stalled peer fails once a write deadline is set and
blocks without one. -/
def netWrite (socks : List Sock) (h : Option Nat) (out : WriteOutcome) : WriteResult :=
  match h with
  | none => .nilDeref
  | some id =>
    match socks[id]? with
    | none => .err id
    | some k =>
      if !k.isOpen then .err id
      else match out with
        | .ok => .ok id
        | .fail => .err id
        | .stall => if k.writeDeadline.isSome then .err id else .blocked

/-! ## The functions of `main.go`, statement by statement -/

/-- Go `createTsdb`: a fresh connection with attempt 0 queued and the
`reconnect` goroutine started. -/
def createTsdb (addr : String) (connectTimeout writeTimeout : Duration) : Sys :=
  { c := { conn := none
           writeTimeout := writeTimeout
           connectTimeout := connectTimeout
           connected := false
           writeChan := []
           reconnectChan := [0]
           addr := addr }
    socks := []
    now := 0
    events := []
    sup := some .recv
    runs := []
    readers := []
    closers := []
    panicked := false }

/-- An unrecovered panic ends the process. -/
def Sys.panic (s : Sys) : Sys :=
  { s with panicked := true }

/-- Go `tsdbConn.write`: `deadline := time.Now()`, then `deadline.Add(..)`
whose result is dropped, then `conn.conn.Write(data)`.  No call of
`SetWriteDeadline` is made. -/
def tsdbConn.write (conn : tsdbConn) (socks : List Sock) (now : Duration) (_data : Bytes)
    (out : WriteOutcome) : WriteResult :=
  let deadline := now
  let _ := deadline + conn.writeTimeout
  netWrite socks conn.conn out

/-- One statement of `reconnect` (with `connect` inlined). -/
def reconnectStep (s : Sys) (pc : SupPC) (dialOk : Bool) : Option Sys :=
  match pc with
  | .recv =>
    match s.c.reconnectChan with
    | [] => none
    | ix :: rest =>
      if ix < 0 then
        some { s with c := { s.c with reconnectChan := rest }
                      events := s.events ++ [.logStopping]
                      sup := none }
      else
        some { s with c := { s.c with reconnectChan := rest }
                      sup := some (.checkConnected ix) }
  | .checkConnected ix =>
    some { s with sup := some (if s.c.connected then .closeOld ix else .sleep ix) }
  | .closeOld ix =>
    match s.c.conn with
    | none => some s.panic
    | some h =>
      some { s with socks := closeAt s.socks h
                    events := s.events ++ [.sockClose h]
                    sup := some (.clearConnected ix) }
  | .clearConnected ix =>
    some { s with c := { s.c with connected := false }, sup := some (.sleep ix) }
  | .sleep ix =>
    some { s with now := s.now + s.c.connectTimeout
                  events := s.events ++ [.slept s.c.connectTimeout]
                  sup := some (.dial ix) }
  | .dial ix =>
    if dialOk then
      some { s with socks := s.socks ++ [{ isOpen := true, writeDeadline := none }]
                    events := s.events ++ [.dialOk s.socks.length]
                    sup := some (.assignConn ix s.socks.length) }
    else
      some { s with events := s.events ++ [.dialFailed]
                    sup := some (.setDisconnected ix) }
  | .assignConn ix c =>
    some { s with c := { s.c with conn := some c }, sup := some (.setConnected ix) }
  | .setConnected _ =>
    some { s with c := { s.c with connected := true }, sup := some .logOk }
  | .setDisconnected ix =>
    some { s with c := { s.c with connected := false }, sup := some (.logError ix) }
  | .logError ix =>
    some { s with events := s.events ++ [.logConnError], sup := some (.requeue ix) }
  | .requeue ix =>
    match chanSend reconnectChanCap s.c.reconnectChan (wrapInt (ix + 1)) with
    | none => none
    | some q => some { s with c := { s.c with reconnectChan := q }, sup := some .recv }
  | .logOk =>
    some { s with events := s.events ++ [.logConnOk], sup := some .goRun }
  | .goRun =>
    some { s with runs := s.runs ++ [.recv], sup := some .goRead }
  | .goRead =>
    some { s with readers := s.readers ++ [.start], sup := some .recv }

/-- One statement of the `i`-th `run` goroutine. -/
def runStep (s : Sys) (i : Nat) (pc : RunPC) (out : WriteOutcome) : Option Sys :=
  match pc with
  | .recv =>
    match s.c.writeChan with
    | [] => none
    | none :: rest =>
      some { s with c := { s.c with writeChan := rest }, runs := s.runs.eraseIdx i }
    | some buf :: rest =>
      some { s with c := { s.c with writeChan := rest }, runs := s.runs.set i (.write buf) }
  | .write buf =>
    match s.c.write s.socks s.now buf out with
    | .nilDeref => some s.panic
    | .blocked => none
    | .err h =>
      some { s with events := s.events ++ [.sockWriteFailed h buf, .logWriteError]
                    runs := s.runs.eraseIdx i }
    | .ok h =>
      some { s with events := s.events ++ [.sockWrite h buf]
                    runs := s.runs.set i .recv }

/-- One statement of the `i`-th `startReadAsync` goroutine. -/
def startReadAsyncStep (s : Sys) (i : Nat) (pc : ReadPC) (err : Bool) : Option Sys :=
  match pc with
  | .start =>
    match s.c.conn with
    | none => some s.panic
    | some h => some { s with readers := s.readers.set i (.reading h) }
  | .reading _ =>
    some { s with events := s.events ++ [if err then .logReadError else .logDbError]
                  readers := s.readers.set i .pushNil }
  | .pushNil =>
    match chanSend writeChanCap s.c.writeChan none with
    | none => none
    | some q => some { s with c := { s.c with writeChan := q }
                              readers := s.readers.set i .closeSock }
  | .closeSock =>
    match s.c.conn with
    | none => some s.panic
    | some h =>
      some { s with socks := closeAt s.socks h
                    events := s.events ++ [.sockClose h]
                    readers := s.readers.set i .clearConnected }
  | .clearConnected =>
    some { s with c := { s.c with connected := false }
                  readers := s.readers.set i .rearm }
  | .rearm =>
    match chanSend reconnectChanCap s.c.reconnectChan 0 with
    | none => none
    | some q => some { s with c := { s.c with reconnectChan := q }
                              readers := s.readers.eraseIdx i }

/-- One statement of the `i`-th in-flight call of `Close`. -/
def closeStep (s : Sys) (i : Nat) (pc : ClosePC) : Option Sys :=
  match pc with
  | .pushStop =>
    match chanSend reconnectChanCap s.c.reconnectChan (-1) with
    | none => none
    | some q => some { s with c := { s.c with reconnectChan := q }
                              closers := s.closers.set i .pushNil }
  | .pushNil =>
    match chanSend writeChanCap s.c.writeChan none with
    | none => none
    | some q => some { s with c := { s.c with writeChan := q }
                              closers := s.closers.set i .closeSock }
  | .closeSock =>
    match s.c.conn with
    | none => some s.panic
    | some h =>
      some { s with socks := closeAt s.socks h
                    events := s.events ++ [.sockClose h]
                    closers := s.closers.set i .clearConnected }
  | .clearConnected =>
    some { s with c := { s.c with connected := false }
                  closers := s.closers.eraseIdx i }

/-- Go `tsdbConn.Write`: `conn.writeChan <- data`. -/
def tsdbConn.Write (s : Sys) (data : Option Bytes) : Option Sys :=
  match chanSend writeChanCap s.c.writeChan data with
  | none => none
  | some q => some { s with c := { s.c with writeChan := q } }

/-- One step of the system: `none` when the chosen goroutine does not exist,
has ended, is blocked, or the process has panicked. -/
def step (s : Sys) (a : Action) : Option Sys :=
  if s.panicked then none
  else match a with
    | .sup dialOk =>
      match s.sup with
      | none => none
      | some pc => reconnectStep s pc dialOk
    | .run i out =>
      match s.runs[i]? with
      | none => none
      | some pc => runStep s i pc out
    | .read i err =>
      match s.readers[i]? with
      | none => none
      | some pc => startReadAsyncStep s i pc err
    | .close i =>
      match s.closers[i]? with
      | none => none
      | some pc => closeStep s i pc
    | .callClose => some { s with closers := s.closers ++ [.pushStop] }
    | .write data => tsdbConn.Write s data

/-- Execution of a schedule, statement by statement. -/
def exec : Sys → List Action → Option Sys
  | s, [] => some s
  | s, a :: rest =>
    match step s a with
    | none => none
    | some s1 => exec s1 rest

/-- States the connection can be in: any schedule from `createTsdb`. -/
def Reachable (s : Sys) : Prop :=
  ∃ (addr : String) (ct wt : Duration) (sched : List Action),
    exec (createTsdb addr ct wt) sched = some s

/-! ## The affinity pool -/

/-- The Go struct `tsdbConnPool`.  `pool` is the Go map from source key to
`*tsdbConn`: `none` is the nil map, an initialised map is an association list,
and a pointer is the index of the connection among the allocated ones. -/
structure tsdbConnPool where
  pool : Option (List (String × Nat))
  targetAddr : String
  writeTimeout : Duration
  connectTimeout : Duration
deriving DecidableEq, Repr

/-- The pool object together with the connections allocated so far. -/
structure PoolWorld where
  heap : List Sys
  tsdb : tsdbConnPool
deriving DecidableEq, Repr

/-- How a call ends: it returned, it is blocked on a channel send, or it
panicked; each with the world at that point. -/
inductive CallResult where
  | done (w : PoolWorld)
  | blocked (w : PoolWorld)
  | panicked (w : PoolWorld)
deriving DecidableEq, Repr

/-- The world a call leaves behind. -/
def CallResult.world : CallResult → PoolWorld
  | .done w => w
  | .blocked w => w
  | .panicked w => w

/-- Go map read `conn, ok := m[k]`: defined on the nil map too, where every key is absent. -/
def mapGet (m : Option (List (String × Nat))) (k : String) : Option Nat :=
  match m with
  | none => none
  | some l => l.lookup k

/-- Go map assignment `m[k] = v`: `none` is the panic "assignment to entry in nil map". -/
def mapSet (m : Option (List (String × Nat))) (k : String) (v : Nat) :
    Option (List (String × Nat)) :=
  match m with
  | none => none
  | some l => some ((k, v) :: l.filter (fun e => e.1 != k))

/-- Go `createTsdbPool`: the three configuration fields are assigned, the map
field keeps its zero value. -/
def createTsdbPool (targetAddr : String) (connectTimeout writeTimeout : Duration) :
    tsdbConnPool :=
  { pool := none
    targetAddr := targetAddr
    writeTimeout := writeTimeout
    connectTimeout := connectTimeout }

/-- Lines 132 to 136 of `tsdbConnPool.Write`: look the key up, and when it is
absent create a connection and register it.  Returns the world and the
connection the buffer goes to, or the world at the panic. -/
def tsdbConnPool.resolve (w : PoolWorld) (source : String) : Except PoolWorld (PoolWorld × Nat) :=
  match mapGet w.tsdb.pool source with
  | some conn => .ok (w, conn)
  | none =>
    let conn := w.heap.length
    let w1 : PoolWorld :=
      { w with heap := w.heap ++
          [createTsdb w.tsdb.targetAddr w.tsdb.connectTimeout w.tsdb.writeTimeout] }
    match mapSet w1.tsdb.pool source conn with
    | none => .error w1
    | some m => .ok ({ w1 with tsdb := { w1.tsdb with pool := some m } }, conn)

/-- Line 137 of `tsdbConnPool.Write`: `conn.Write(buf)` through the pointer. -/
def tsdbConnPool.forward (w : PoolWorld) (conn : Nat) (buf : Option Bytes) : CallResult :=
  match w.heap[conn]? with
  | none => .panicked w
  | some s =>
    match tsdbConn.Write s buf with
    | none => .blocked w
    | some s1 => .done { w with heap := w.heap.set conn s1 }

/-- Go `tsdbConnPool.Write`. -/
def tsdbConnPool.Write (w : PoolWorld) (source : String) (buf : Option Bytes) : CallResult :=
  match tsdbConnPool.resolve w source with
  | .error w1 => .panicked w1
  | .ok (w1, conn) => tsdbConnPool.forward w1 conn buf

/-- A sequence of `Write` calls made one after the other. -/
def tsdbConnPool.writeAll : PoolWorld → List (String × Option Bytes) → PoolWorld
  | w, [] => w
  | w, (k, b) :: rest => tsdbConnPool.writeAll (tsdbConnPool.Write w k b).world rest

/-- The registry is an initialised map with distinct keys, holding distinct
allocated connections. -/
def PoolWorld.WF (w : PoolWorld) : Prop :=
  ∃ m, w.tsdb.pool = some m ∧ (m.map Prod.fst).Nodup ∧ (m.map Prod.snd).Nodup ∧
    ∀ e ∈ m, e.2 < w.heap.length

/-- The connection `Write` forwards the buffer of this source key to. -/
def tsdbConnPool.target (w : PoolWorld) (source : String) : Option Nat :=
  match tsdbConnPool.resolve w source with
  | .ok (_, conn) => some conn
  | .error _ => none

/-! ## Calls run to completion -/

/-- How a call on one connection ends: it returned, it is blocked on a
channel, or the process panicked; each with the state at that point. -/
inductive Outcome where
  | returned (s : Sys)
  | blocked (s : Sys)
  | panicked (s : Sys)
deriving DecidableEq, Repr

/-- Statements executed back to back, with no other goroutine in between. -/
def call : Sys → List Action → Outcome
  | s, [] => if s.panicked then .panicked s else .returned s
  | s, a :: rest =>
    if s.panicked then .panicked s
    else match step s a with
      | none => .blocked s
      | some s1 => call s1 rest

/-- Go `tsdbConn.Close`, its four statements executed back to back. -/
def tsdbConn.Close (s : Sys) : Outcome :=
  call s [.callClose, .close s.closers.length, .close s.closers.length,
    .close s.closers.length, .close s.closers.length]

/-! ## The reconnect token and the owner of the open socket -/

/-- Number of dial requests (non-negative entries) waiting in `reconnectChan`. -/
def chanTokens (q : List Int) : Nat :=
  q.countP (fun ix => decide (0 ≤ ix))

/-- Does the supervisor hold a dial request it has received and not yet
handed on (1) or not (0). -/
def supHolds : Option SupPC → Nat
  | none => 0
  | some .recv => 0
  | some _ => 1

/-- The supervisor is between storing the dialled socket and starting the
read-drain goroutine. -/
def postDial : Option SupPC → Bool
  | some (.setConnected _) => true
  | some .logOk => true
  | some .goRun => true
  | some .goRead => true
  | _ => false

/-- The socket the supervisor has just dialled and not yet stored in `conn.conn`. -/
def dialled : Option SupPC → Option Nat
  | some (.assignConn _ c) => some c
  | _ => none

/-- The read-drain goroutine has not yet closed its socket. -/
def preClose : ReadPC → Bool
  | .start => true
  | .reading _ => true
  | .pushNil => true
  | .closeSock => true
  | .clearConnected => false
  | .rearm => false

/-- Inductive invariant: there is at most one dial request in the system
(queued, held by the supervisor, or owed by a live read-drain goroutine), and
every open socket is either the one just dialled or the one in `conn.conn`
while the supervisor or a read-drain goroutine still owes its close. -/
structure Inv (s : Sys) : Prop where
  token : chanTokens s.c.reconnectChan + supHolds s.sup + s.readers.length ≤ 1
  owner : ∀ i, sockOpen s.socks i = true →
    dialled s.sup = some i ∨
      (s.c.conn = some i ∧ (postDial s.sup = true ∨ s.readers.any preClose = true))

/-! ## Schedules of the write-drain goroutine -/

/-- The schedule in which the `i`-th `run` goroutine, waiting at its receive,
works through the queue content `q` with every socket write succeeding: two
statements for a buffer, one for the nil entry, at which it ends. -/
def drainSched (i : Nat) : List (Option Bytes) → List Action
  | [] => []
  | none :: _ => [.run i .ok]
  | some _ :: rest => .run i .ok :: .run i .ok :: drainSched i rest

/-- The state after a drain: `bs` written to socket `h`, `rest` left in the
queue, `runs` the goroutines left. -/
def Sys.afterDrain (s : Sys) (h : Nat) (bs : List Bytes) (rest : List (Option Bytes))
    (runs : List RunPC) : Sys :=
  { s with c := { s.c with writeChan := rest }
           events := s.events ++ bs.map (Event.sockWrite h)
           runs := runs }

/-- The buffers handed to `Write` along a schedule, in call order. -/
def submitted : List Action → List Bytes
  | [] => []
  | .write (some b) :: rest => b :: submitted rest
  | _ :: rest => submitted rest

/-- The supervisor has set `connected` and not yet started the read-drain goroutine. -/
def postConn : Option SupPC → Bool
  | some .logOk => true
  | some .goRun => true
  | some .goRead => true
  | _ => false

/-- Whenever `connected` is set, the supervisor has just set it or a
read-drain goroutine that has not yet cleared it is alive. -/
def FlagOk (s : Sys) : Prop :=
  s.c.connected = true →
    postConn s.sup = true ∨ s.readers.any (fun pc => pc != ReadPC.rearm) = true

/-! ## Tasks -/

/-- The goroutine or caller an action belongs to. -/
inductive Task where
  | supervisor
  | writeDrain
  | readDrain
  | closeCall
  | writeCall
deriving DecidableEq, Repr

/-- The owner of a scheduling decision. -/
def Action.task : Action → Task
  | .sup _ => .supervisor
  | .run _ _ => .writeDrain
  | .read _ _ => .readDrain
  | .close _ => .closeCall
  | .callClose => .closeCall
  | .write _ => .writeCall

/-! ## Recovery schedules -/

/-- The seven statements of one failed attempt: receive, test `connected`,
sleep, dial (fails), clear `connected`, log, re-enqueue. -/
def failRound : List Action :=
  List.replicate 7 (.sup false)

/-- The nine statements of a successful attempt: receive, test `connected`,
sleep, dial, store the socket, set `connected`, log, `go run`, `go startReadAsync`. -/
def okRound : List Action :=
  List.replicate 9 (.sup true)

/-- `n` failed attempts in a row. -/
def failRounds : Nat → List Action
  | 0 => []
  | n + 1 => failRound ++ failRounds n

/-- The supervisor's statements when the first `n` dials fail and the next succeeds. -/
def recoverySched (n : Nat) : List Action :=
  failRounds n ++ okRound

/-- What `n` failed attempts emit: each a sleep of the connect delay, the
failed dial and one error log line. -/
def failEvents (ct : Duration) : Nat → List Event
  | 0 => []
  | n + 1 => [.slept ct, .dialFailed, .logConnError] ++ failEvents ct n

/-- The connection with no dial succeeded yet and the attempt counter `k` queued. -/
def idle (addr : String) (ct wt : Duration) (k : Nat) (q : List (Option Bytes))
    (evs : List Event) (now : Duration) : Sys :=
  { c := { conn := none
           writeTimeout := wt
           connectTimeout := ct
           connected := false
           writeChan := q
           reconnectChan := [(k : Int)]
           addr := addr }
    socks := []
    now := now
    events := evs
    sup := some .recv
    runs := []
    readers := []
    closers := []
    panicked := false }

/-- The state with the outbound queue replaced. -/
def Sys.withQueue (s : Sys) (q : List (Option Bytes)) : Sys :=
  { s with c := { s.c with writeChan := q } }

/-- The connection right after its first successful dial: socket 0 stored and
open, one `run` and one `startReadAsync` goroutine started. -/
def firstConnected (addr : String) (ct wt : Duration) (q : List (Option Bytes))
    (evs : List Event) (now : Duration) : Sys :=
  { c := { conn := some 0
           writeTimeout := wt
           connectTimeout := ct
           connected := true
           writeChan := q
           reconnectChan := []
           addr := addr }
    socks := [{ isOpen := true, writeDeadline := none }]
    now := now
    events := evs
    sup := some .recv
    runs := [.recv]
    readers := [.start]
    closers := []
    panicked := false }

/-- Is the action a statement of the supervisor. -/
def isSup : Action → Bool
  | .sup _ => true
  | _ => false

/-! ## A shutdown schedule -/

/-- First connection, then the read side fails: the read-drain goroutine
pushes nil, closes socket 0, clears `connected` and re-arms; the `run`
goroutine takes the nil and ends; a caller writes `"hi"`. -/
def lostConnection : List Action :=
  okRound ++ List.replicate 6 (.read 0 true) ++ [.run 0 .ok, .write (some [104, 105])]

/-- One complete call of `Close`. -/
def closeCall : List Action :=
  [.callClose, .close 0, .close 0, .close 0, .close 0]

/-- The supervisor takes the request queued before the stop request, dials
and connects, then takes the stop request and ends; the new `run` goroutine
writes `"hi"`. -/
def afterClose : List Action :=
  okRound ++ [.sup true, .run 0 .ok, .run 0 .ok]

/-! ## A connection left without a write-drain goroutine -/

/-- The first connection after its read side failed: the read-drain goroutine
has pushed nil and closed socket 0 and is about to clear `connected`. -/
def readerClearing : Sys :=
  { c := { conn := some 0
           writeTimeout := 10
           connectTimeout := 2
           connected := true
           writeChan := [none]
           reconnectChan := []
           addr := "127.0.0.1:8282" }
    socks := [{ isOpen := false, writeDeadline := none }]
    now := 2
    events := [.slept 2, .dialOk 0, .logConnOk, .logReadError, .sockClose 0]
    sup := some .recv
    runs := [.recv]
    readers := [.clearConnected]
    closers := []
    panicked := false }

/-- The same connection one statement later: the read-drain goroutine is
about to enqueue attempt 0. -/
def readerRearming : Sys :=
  { readerClearing with
      c := { readerClearing.c with connected := false }
      readers := [.rearm] }

/-! ## Concrete instances -/

/-- A pool with one registered source key. -/
def demoPool : PoolWorld :=
  { heap := [createTsdb "127.0.0.1:8282" 2 10]
    tsdb := { pool := some [("node-a", 0)]
              targetAddr := "127.0.0.1:8282"
              writeTimeout := 10
              connectTimeout := 2 } }

/-- The connection right after its first dial succeeded at once. -/
def demoConnected : Sys :=
  firstConnected "127.0.0.1:8282" 2 10 [] [.slept 2, .dialOk 0, .logConnOk] 2

/-- The connected state with `run` about to write the buffer `[1]`. -/
def demoWriting : Sys :=
  { demoConnected with runs := [.write [1]] }

/-- Two failed dials and a successful one, with a `Write` before the first
attempt and one between the two failures. -/
def demoRecovery : List Action :=
  [.write (some [1])] ++ failRound ++ [.write (some [2])] ++ failRound ++ okRound

/-- Is the action a supervisor statement or a `Write` of a non-nil buffer. -/
def supOrWrite : Action → Bool
  | .sup _ => true
  | .write (some _) => true
  | _ => false

/-- The connected state with a buffer, a nil entry and another buffer queued. -/
def demoQueued : Sys :=
  firstConnected "127.0.0.1:8282" 2 10 [some [1], none, some [2]] [] 2

/-! ## Counting the write-drain goroutines -/

theorem lookup_mem {m : List (String × Nat)} {k : String} {c : Nat}
    (h : m.lookup k = some c) : (k, c) ∈ m := by
  induction m with
  | nil => simp at h
  | cons e rest ih =>
    obtain ⟨k1, c1⟩ := e
    by_cases hk : k = k1
    · subst hk
      simp [List.lookup] at h
      simp [h]
    · have hb : (k == k1) = false := by simpa using hk
      simp [List.lookup, hb] at h
      exact List.mem_cons_of_mem _ (ih h)

theorem lookup_none_filter {m : List (String × Nat)} {k : String}
    (h : m.lookup k = none) : m.filter (fun e => e.1 != k) = m := by
  induction m with
  | nil => rfl
  | cons e rest ih =>
    obtain ⟨k1, c1⟩ := e
    by_cases hk : k = k1
    · subst hk
      simp [List.lookup] at h
    · have hb : (k == k1) = false := by simpa using hk
      simp only [List.lookup, hb] at h
      have hk1 : (k1 != k) = true := by simpa using fun e => hk e.symm
      simp only [List.filter, hk1, ih h]

theorem lookup_none_not_mem {m : List (String × Nat)} {k : String}
    (h : m.lookup k = none) : k ∉ m.map Prod.fst := by
  induction m with
  | nil => simp
  | cons e rest ih =>
    obtain ⟨k1, c1⟩ := e
    by_cases hk : k = k1
    · subst hk
      simp [List.lookup] at h
    · have hb : (k == k1) = false := by simpa using hk
      simp only [List.lookup, hb] at h
      have := ih h
      simp only [List.map_cons, List.mem_cons, not_or]
      exact ⟨hk, this⟩

theorem lookup_inj {m : List (String × Nat)} (hv : (m.map Prod.snd).Nodup)
    {k1 k2 : String} {c : Nat} (h1 : m.lookup k1 = some c) (h2 : m.lookup k2 = some c) :
    k1 = k2 := by
  induction m with
  | nil => simp at h1
  | cons e rest ih =>
    obtain ⟨k, v⟩ := e
    simp only [List.map_cons, List.nodup_cons] at hv
    by_cases e1 : k1 = k <;> by_cases e2 : k2 = k
    · rw [e1, e2]
    · exfalso
      subst e1
      have hb : (k2 == k1) = false := by simpa using e2
      simp [List.lookup, hb] at h1 h2
      subst h1
      exact hv.1 (List.mem_map.mpr ⟨(k2, v), lookup_mem h2, rfl⟩)
    · exfalso
      subst e2
      have hb : (k1 == k2) = false := by simpa using e1
      simp [List.lookup, hb] at h1 h2
      subst h2
      exact hv.1 (List.mem_map.mpr ⟨(k1, v), lookup_mem h1, rfl⟩)
    · have hb1 : (k1 == k) = false := by simpa using e1
      have hb2 : (k2 == k) = false := by simpa using e2
      simp [List.lookup, hb1] at h1
      simp [List.lookup, hb2] at h2
      exact ih hv.2 h1 h2

theorem resolve_present {w : PoolWorld} {k : String} {c : Nat}
    (h : mapGet w.tsdb.pool k = some c) : tsdbConnPool.resolve w k = .ok (w, c) := by
  simp [tsdbConnPool.resolve, h]

theorem resolve_absent {w : PoolWorld} {m : List (String × Nat)} {k : String}
    (hm : w.tsdb.pool = some m) (h : mapGet w.tsdb.pool k = none) :
    tsdbConnPool.resolve w k = .ok
      ({ heap := w.heap ++
            [createTsdb w.tsdb.targetAddr w.tsdb.connectTimeout w.tsdb.writeTimeout]
         tsdb := { w.tsdb with pool := some ((k, w.heap.length) :: m) } },
       w.heap.length) := by
  have hl : m.lookup k = none := by simpa [mapGet, hm] using h
  simp only [tsdbConnPool.resolve, h]
  simp [hm, mapSet, lookup_none_filter hl]

theorem forward_world (w : PoolWorld) (c : Nat) (b : Option Bytes) :
    (tsdbConnPool.forward w c b).world.tsdb = w.tsdb ∧
      (tsdbConnPool.forward w c b).world.heap.length = w.heap.length := by
  unfold tsdbConnPool.forward
  cases w.heap[c]? with
  | none => simp [CallResult.world]
  | some s =>
    cases hw : tsdbConn.Write s b with
    | none => simp [CallResult.world, hw]
    | some s1 => simp [CallResult.world, hw]

theorem wf_of_same_registry {w w1 : PoolWorld} (hwf : w.WF) (ht : w1.tsdb = w.tsdb)
    (hl : w.heap.length ≤ w1.heap.length) : w1.WF := by
  obtain ⟨m, hm, hk, hv, hb⟩ := hwf
  exact ⟨m, by rw [ht, hm], hk, hv, fun e he => lt_of_lt_of_le (hb e he) hl⟩

/-- What lines 132 to 136 do on a well-formed registry. -/
theorem resolve_spec (w : PoolWorld) (hwf : w.WF) (k : String) :
    ∃ w1 c, tsdbConnPool.resolve w k = .ok (w1, c) ∧ w1.WF ∧
      mapGet w1.tsdb.pool k = some c ∧ c < w1.heap.length ∧
      (∀ k1 c1, mapGet w.tsdb.pool k1 = some c1 → mapGet w1.tsdb.pool k1 = some c1) ∧
      (∀ k1, k1 ≠ k → mapGet w1.tsdb.pool k1 = mapGet w.tsdb.pool k1) ∧
      w.heap.length ≤ w1.heap.length := by
  obtain ⟨m, hm, hk, hv, hb⟩ := hwf
  cases hg : mapGet w.tsdb.pool k with
  | some c =>
    refine ⟨w, c, resolve_present hg, ⟨m, hm, hk, hv, hb⟩, hg, ?_, fun _ _ h => h,
      fun _ _ => rfl, le_refl _⟩
    have hl : m.lookup k = some c := by simpa [mapGet, hm] using hg
    exact hb _ (lookup_mem hl)
  | none =>
    have hl : m.lookup k = none := by simpa [mapGet, hm] using hg
    refine ⟨_, _, resolve_absent hm hg, ⟨(k, w.heap.length) :: m, rfl, ?_, ?_, ?_⟩,
      ?_, ?_, ?_, ?_, ?_⟩
    · simp only [List.map_cons, List.nodup_cons]
      exact ⟨lookup_none_not_mem hl, hk⟩
    · simp only [List.map_cons, List.nodup_cons]
      refine ⟨?_, hv⟩
      intro hmem
      obtain ⟨e, he, hee⟩ := List.mem_map.mp hmem
      have := hb e he
      omega
    · intro e he
      simp only [List.length_append, List.length_singleton]
      rcases List.mem_cons.mp he with h1 | h1
      · subst h1
        simp
      · have := hb e h1
        omega
    · simp [mapGet, List.lookup]
    · simp
    · intro k1 c1 h1
      have hne : (k1 == k) = false := by
        have : k1 ≠ k := by
          intro e
          subst e
          rw [hg] at h1
          cases h1
        simpa using this
      simpa [mapGet, hm, List.lookup, hne] using h1
    · intro k1 hne
      have hne1 : (k1 == k) = false := by simpa using hne
      simp [mapGet, hm, List.lookup, hne1]
    · simp

/-- One `Write` keeps a well-formed registry well-formed, registers the key
under the connection it forwards to, and changes no other registration. -/
theorem write_spec (w : PoolWorld) (hwf : w.WF) (k : String) (b : Option Bytes) :
    (tsdbConnPool.Write w k b).world.WF ∧
      mapGet (tsdbConnPool.Write w k b).world.tsdb.pool k = tsdbConnPool.target w k ∧
      (∀ k1 c1, mapGet w.tsdb.pool k1 = some c1 →
        mapGet (tsdbConnPool.Write w k b).world.tsdb.pool k1 = some c1) ∧
      (∀ k1, k1 ≠ k →
        mapGet (tsdbConnPool.Write w k b).world.tsdb.pool k1 = mapGet w.tsdb.pool k1) := by
  obtain ⟨w1, c, hr, hwf1, hg, _, hkeep, hother, _⟩ := resolve_spec w hwf k
  have hf := forward_world w1 c b
  simp only [tsdbConnPool.Write, tsdbConnPool.target, hr]
  refine ⟨wf_of_same_registry hwf1 hf.1 (le_of_eq hf.2.symm), ?_, ?_, ?_⟩
  · rw [hf.1, hg]
  · intro k1 c1 h1
    rw [hf.1]
    exact hkeep k1 c1 h1
  · intro k1 hne
    rw [hf.1]
    exact hother k1 hne

/-- Later `Write` calls never change a registration. -/
theorem writeAll_keeps (ws : List (String × Option Bytes)) :
    ∀ (w : PoolWorld), w.WF → ∀ k c, mapGet w.tsdb.pool k = some c →
      mapGet (tsdbConnPool.writeAll w ws).tsdb.pool k = some c := by
  induction ws with
  | nil => intro w _ k c h; exact h
  | cons e rest ih =>
    intro w hwf k c h
    obtain ⟨k1, b1⟩ := e
    have hs := write_spec w hwf k1 b1
    exact ih _ hs.1 k c (hs.2.2.1 k c h)

theorem target_eq_mapGet (w : PoolWorld) (hwf : w.WF) (k : String) :
    ∃ w1 c, tsdbConnPool.resolve w k = .ok (w1, c) ∧ tsdbConnPool.target w k = some c ∧
      w1.WF ∧ mapGet w1.tsdb.pool k = some c ∧
      (∀ k1 c1, mapGet w.tsdb.pool k1 = some c1 → mapGet w1.tsdb.pool k1 = some c1) := by
  obtain ⟨w1, c, hr, hwf1, hg, _, hkeep, _, _⟩ := resolve_spec w hwf k
  exact ⟨w1, c, hr, by simp [tsdbConnPool.target, hr], hwf1, hg, hkeep⟩

theorem mapGet_inj {w : PoolWorld} (hwf : w.WF) {k1 k2 : String} {c : Nat}
    (h1 : mapGet w.tsdb.pool k1 = some c) (h2 : mapGet w.tsdb.pool k2 = some c) : k1 = k2 := by
  obtain ⟨m, hm, _, hv, _⟩ := hwf
  rw [hm] at h1 h2
  exact lookup_inj hv h1 h2

/-! ## C4: the registry of a fresh pool -/

/-- C4 (evaluation of the code): `createTsdbPool` stores the three
configuration values but leaves the registry the nil map; every key is absent
from it, and the first `Write`, for any source key and buffer, allocates the
connection and then panics on the map assignment instead of returning. -/
theorem createTsdbPool_first_write_panics (addr : String) (ct wt : Duration)
    (heap : List Sys) (k : String) (b : Option Bytes) :
    (createTsdbPool addr ct wt).targetAddr = addr ∧
    (createTsdbPool addr ct wt).connectTimeout = ct ∧
    (createTsdbPool addr ct wt).writeTimeout = wt ∧
    (createTsdbPool addr ct wt).pool = none ∧
    mapGet (createTsdbPool addr ct wt).pool k = none ∧
    ¬ (PoolWorld.WF { heap := heap, tsdb := createTsdbPool addr ct wt }) ∧
    tsdbConnPool.Write { heap := heap, tsdb := createTsdbPool addr ct wt } k b =
      .panicked { heap := heap ++ [createTsdb addr ct wt], tsdb := createTsdbPool addr ct wt } := by
  refine ⟨rfl, rfl, rfl, rfl, rfl, ?_, ?_⟩
  · rintro ⟨m, hm, _⟩
    simp [createTsdbPool] at hm
  · simp [tsdbConnPool.Write, tsdbConnPool.resolve, createTsdbPool, mapGet, mapSet]

/-! ## C1: affinity -/

/-- C1: on a well-formed registry (initialised, distinct keys, distinct
allocated connections) `Write k b` with `k` registered under `c` leaves the
registry unchanged and appends `b` to the queue of `c` (or is blocked on that
queue when it is full); with `k` absent it allocates one connection that no
key is registered under, built by `createTsdb` from the pool's address,
connect delay and write deadline, registers it under `k` and appends `b` to
its queue.  Hence a second `Write` reaches the same connection exactly when
its key is equal, and no sequence of later `Write` calls changes what a key is
registered under. -/
theorem pool_write_affinity (w : PoolWorld) (hwf : w.WF) (k : String) (b : Option Bytes) :
    (∀ c, mapGet w.tsdb.pool k = some c →
      tsdbConnPool.target w k = some c ∧
      ∃ s, w.heap[c]? = some s ∧
        (s.c.writeChan.length < writeChanCap →
          tsdbConnPool.Write w k b = .done
            { heap := w.heap.set c { s with c := { s.c with writeChan := s.c.writeChan ++ [b] } }
              tsdb := w.tsdb }) ∧
        (writeChanCap ≤ s.c.writeChan.length → tsdbConnPool.Write w k b = .blocked w)) ∧
    (mapGet w.tsdb.pool k = none →
      tsdbConnPool.target w k = some w.heap.length ∧
      (∀ k1, mapGet w.tsdb.pool k1 ≠ some w.heap.length) ∧
      ∃ m, w.tsdb.pool = some m ∧
        tsdbConnPool.Write w k b = .done
          { heap := w.heap ++
              [{ createTsdb w.tsdb.targetAddr w.tsdb.connectTimeout w.tsdb.writeTimeout with
                  c := { (createTsdb w.tsdb.targetAddr w.tsdb.connectTimeout
                            w.tsdb.writeTimeout).c with writeChan := [b] } }]
            tsdb := { w.tsdb with pool := some ((k, w.heap.length) :: m) } }) ∧
    mapGet (tsdbConnPool.Write w k b).world.tsdb.pool k = tsdbConnPool.target w k ∧
    (∀ k2, tsdbConnPool.target (tsdbConnPool.Write w k b).world k2 = tsdbConnPool.target w k ↔
      k2 = k) ∧
    (∀ ws k1 c1, mapGet (tsdbConnPool.Write w k b).world.tsdb.pool k1 = some c1 →
      mapGet (tsdbConnPool.writeAll (tsdbConnPool.Write w k b).world ws).tsdb.pool k1 =
        some c1) := by
  have hs := write_spec w hwf k b
  refine ⟨?_, ?_, hs.2.1, ?_, ?_⟩
  · intro c hc
    obtain ⟨m, hm, _, _, hb⟩ := hwf
    have hl : m.lookup k = some c := by simpa [mapGet, hm] using hc
    have hlt : c < w.heap.length := hb _ (lookup_mem hl)
    refine ⟨by simp [tsdbConnPool.target, resolve_present hc], w.heap[c], ?_, ?_, ?_⟩
    · simp [hlt]
    · intro hcap
      simp [tsdbConnPool.Write, resolve_present hc, tsdbConnPool.forward, hlt,
        tsdbConn.Write, chanSend, hcap]
    · intro hcap
      have : ¬ (w.heap[c].c.writeChan.length < writeChanCap) := by omega
      simp [tsdbConnPool.Write, resolve_present hc, tsdbConnPool.forward, hlt,
        tsdbConn.Write, chanSend, this]
  · intro hc
    obtain ⟨m, hm, _, _, hb⟩ := hwf
    refine ⟨by simp [tsdbConnPool.target, resolve_absent hm hc], ?_, m, hm, ?_⟩
    · intro k1 h1
      have hl : m.lookup k1 = some w.heap.length := by simpa [mapGet, hm] using h1
      have := hb _ (lookup_mem hl)
      simp at this
    · simp [tsdbConnPool.Write, resolve_absent hm hc, tsdbConnPool.forward,
        tsdbConn.Write, chanSend, createTsdb, writeChanCap]
  · intro k2
    obtain ⟨w2, c2, _, ht2, hwf2, hg2, hkeep2⟩ := target_eq_mapGet _ hs.1 k2
    obtain ⟨_, c, _, ht, _, _, _⟩ := target_eq_mapGet w hwf k
    have hk : mapGet w2.tsdb.pool k = some c := hkeep2 k c (by rw [hs.2.1, ht])
    rw [ht2, ht]
    constructor
    · intro e
      have e1 : c2 = c := by simpa using e
      subst e1
      exact mapGet_inj hwf2 hg2 hk
    · intro e
      subst e
      rw [hg2] at hk
      exact hk
  · intro ws k1 c1 h1
    exact writeAll_keeps ws _ hs.1 k1 c1 h1

/-! ## Schedules and invariants -/

theorem exec_append (s : Sys) (xs ys : List Action) :
    exec s (xs ++ ys) = (exec s xs).bind (fun t => exec t ys) := by
  induction xs generalizing s with
  | nil => rfl
  | cons a rest ih =>
    simp only [List.cons_append, exec]
    cases step s a with
    | none => rfl
    | some s1 => exact ih s1

/-- A property kept by every step holds along every schedule. -/
theorem exec_invariant (P : Sys → Prop)
    (hstep : ∀ s a s1, P s → step s a = some s1 → P s1) :
    ∀ (sched : List Action) (s s1 : Sys), P s → exec s sched = some s1 → P s1 := by
  intro sched
  induction sched with
  | nil =>
    intro s s1 hP h
    simp only [exec, Option.some.injEq] at h
    exact h ▸ hP
  | cons a rest ih =>
    intro s s1 hP h
    simp only [exec] at h
    cases hs : step s a with
    | none => simp [hs] at h
    | some s2 =>
      rw [hs] at h
      exact ih s2 s1 (hstep s a s2 hP hs) h

theorem reachable_invariant (P : Sys → Prop)
    (hinit : ∀ addr ct wt, P (createTsdb addr ct wt))
    (hstep : ∀ s a s1, P s → step s a = some s1 → P s1) :
    ∀ s, Reachable s → P s := by
  rintro s ⟨addr, ct, wt, sched, h⟩
  exact exec_invariant P hstep sched _ s (hinit addr ct wt) h

theorem step_socks {s s1 : Sys} {a : Action} (h : step s a = some s1) :
    s1.socks = s.socks ∨ (∃ k, s1.socks = closeAt s.socks k) ∨
      s1.socks = s.socks ++ [{ isOpen := true, writeDeadline := none }] := by
  unfold step at h
  split at h
  · cases h
  · cases a <;> simp only [tsdbConn.Write] at h <;> (try split at h) <;> (try cases h)
    all_goals try (rename_i pc _; cases pc <;>
      simp only [reconnectStep, runStep, startReadAsyncStep, closeStep] at h)
    all_goals repeat' (split at h)
    all_goals try cases h
    all_goals simp [Sys.panic]

/-! ## Sockets: closing and opening -/

theorem sockOpen_closeAt (l : List Sock) (h i : Nat) :
    sockOpen (closeAt l h) i = (sockOpen l i && (i != h)) := by
  induction l generalizing h i with
  | nil => simp [closeAt, sockOpen]
  | cons k rest ih =>
    cases h with
    | zero =>
      cases i with
      | zero => simp [closeAt, sockOpen]
      | succ n => simp [closeAt, sockOpen]
    | succ m =>
      cases i with
      | zero => simp [closeAt, sockOpen]
      | succ n =>
        have := ih m n
        simp only [sockOpen, closeAt, List.getElem?_cons_succ] at this ⊢
        rw [this]
        simp

theorem sockOpen_lt {l : List Sock} {i : Nat} (h : sockOpen l i = true) : i < l.length := by
  unfold sockOpen at h
  by_contra hlt
  have : l[i]? = none := List.getElem?_eq_none (by omega)
  simp [this] at h

theorem sockOpen_append (l : List Sock) (k : Sock) (i : Nat) :
    sockOpen (l ++ [k]) i = (sockOpen l i || (i == l.length && k.isOpen)) := by
  unfold sockOpen
  rcases Nat.lt_trichotomy i l.length with hlt | heq | hgt
  · rw [List.getElem?_append_left hlt]
    have : (i == l.length) = false := by simpa using Nat.ne_of_lt hlt
    simp [this]
  · subst heq
    simp
  · have h1 : (l ++ [k])[i]? = none := List.getElem?_eq_none (by simp; omega)
    have h2 : l[i]? = none := List.getElem?_eq_none (by omega)
    have : (i == l.length) = false := by simpa using Nat.ne_of_gt hgt
    simp [h1, h2, this]

theorem openCount_le_one (l : List Sock)
    (h : ∀ i j, sockOpen l i = true → sockOpen l j = true → i = j) : openCount l ≤ 1 := by
  induction l with
  | nil => simp [openCount]
  | cons k rest ih =>
    have hrest : ∀ i j, sockOpen rest i = true → sockOpen rest j = true → i = j := by
      intro i j hi hj
      have := h (i + 1) (j + 1) (by simpa [sockOpen] using hi) (by simpa [sockOpen] using hj)
      omega
    have ih1 := ih hrest
    unfold openCount at ih1 ⊢
    rw [List.countP_cons]
    by_cases hk : k.isOpen = true
    · have hz : List.countP (fun k => k.isOpen) rest = 0 := by
        rw [List.countP_eq_zero]
        intro a ha
        obtain ⟨n, hn, hget⟩ := List.getElem_of_mem ha
        intro hopen
        have := h 0 (n + 1) (by simp [sockOpen, hk]) (by simp [sockOpen, hn, hget, hopen])
        omega
      simp [hz, hk]
    · simp [hk]
      exact ih1

theorem single_of_get {α : Type} {l : List α} {i : Nat} {x : α}
    (hlen : l.length ≤ 1) (h : l[i]? = some x) : l = [x] ∧ i = 0 := by
  match l, hlen, h with
  | [a], _, h =>
    cases i with
    | zero => simp at h; simp [h]
    | succ n => simp at h

/-! ## The token invariant -/

theorem inv_createTsdb (addr : String) (ct wt : Duration) : Inv (createTsdb addr ct wt) := by
  constructor
  · simp [createTsdb, chanTokens, supHolds]
  · intro i hi
    simp [createTsdb, sockOpen] at hi

theorem Inv.readers_nil {s : Sys} (hinv : Inv s) (h : supHolds s.sup = 1) : s.readers = [] := by
  have := hinv.token
  exact List.length_eq_zero.mp (by omega)

theorem Inv.no_open {s : Sys} (hinv : Inv s) (h : supHolds s.sup = 1)
    (hd : dialled s.sup = none) (hp : postDial s.sup = false) (i : Nat) :
    sockOpen s.socks i = false := by
  cases ho : sockOpen s.socks i with
  | false => rfl
  | true =>
    have := hinv.owner i ho
    simp [hd, hp, hinv.readers_nil h] at this

theorem chanTokens_cons (ix : Int) (rest : List Int) :
    chanTokens (ix :: rest) = chanTokens rest + (if 0 ≤ ix then 1 else 0) := by
  simp [chanTokens, List.countP_cons]

theorem chanTokens_append (q : List Int) (ix : Int) :
    chanTokens (q ++ [ix]) = chanTokens q + (if 0 ≤ ix then 1 else 0) := by
  simp [chanTokens, List.countP_append, List.countP_cons]

theorem inv_sup {s s1 : Sys} {pc : SupPC} {ok : Bool} (hinv : Inv s) (hs : s.sup = some pc)
    (h : reconnectStep s pc ok = some s1) : Inv s1 := by
  have htok := hinv.token
  have hown := hinv.owner
  cases pc with
  | recv =>
    simp only [reconnectStep] at h
    split at h
    · cases h
    · rename_i ix rest hq
      rw [hq, chanTokens_cons, hs] at htok
      simp only [hs, dialled, postDial] at hown
      split at h <;> cases h
      · rename_i hneg
        constructor
        · simp only [supHolds] at htok ⊢
          omega
        · intro i hi
          simpa [dialled, postDial] using hown i hi
      · rename_i hneg
        have h0 : 0 ≤ ix := by omega
        constructor
        · simp only [supHolds, h0, if_true] at htok ⊢
          omega
        · intro i hi
          exfalso
          have := hown i hi
          simp only [supHolds, h0, if_true] at htok
          have hr : s.readers = [] := List.length_eq_zero.mp (by omega)
          simp [hr] at this
  | checkConnected ix =>
    have hno := hinv.no_open (by rw [hs]; rfl) (by rw [hs]; rfl) (by rw [hs]; rfl)
    simp only [reconnectStep] at h
    cases h
    constructor
    · rw [hs] at htok
      by_cases hc : s.c.connected = true <;> simpa [hc, supHolds] using htok
    · intro i hi
      simp [hno i] at hi
  | closeOld ix =>
    have hno := hinv.no_open (by rw [hs]; rfl) (by rw [hs]; rfl) (by rw [hs]; rfl)
    simp only [reconnectStep] at h
    split at h <;> cases h
    · constructor
      · simpa [Sys.panic] using htok
      · intro i hi
        simp [Sys.panic, hno i] at hi
    · constructor
      · rw [hs] at htok
        simpa [supHolds] using htok
      · intro i hi
        simp [sockOpen_closeAt, hno i] at hi
  | clearConnected ix =>
    have hno := hinv.no_open (by rw [hs]; rfl) (by rw [hs]; rfl) (by rw [hs]; rfl)
    simp only [reconnectStep] at h
    cases h
    constructor
    · rw [hs] at htok
      simpa [supHolds] using htok
    · intro i hi
      simp [hno i] at hi
  | sleep ix =>
    have hno := hinv.no_open (by rw [hs]; rfl) (by rw [hs]; rfl) (by rw [hs]; rfl)
    simp only [reconnectStep] at h
    cases h
    constructor
    · rw [hs] at htok
      simpa [supHolds] using htok
    · intro i hi
      simp [hno i] at hi
  | dial ix =>
    have hno := hinv.no_open (by rw [hs]; rfl) (by rw [hs]; rfl) (by rw [hs]; rfl)
    simp only [reconnectStep] at h
    split at h <;> cases h
    · constructor
      · rw [hs] at htok
        simpa [supHolds] using htok
      · intro i hi
        left
        simp [sockOpen_append, hno i] at hi
        simp [dialled, hi]
    · constructor
      · rw [hs] at htok
        simpa [supHolds] using htok
      · intro i hi
        simp [hno i] at hi
  | assignConn ix c =>
    have hr := hinv.readers_nil (by rw [hs]; rfl)
    simp only [reconnectStep] at h
    cases h
    constructor
    · rw [hs] at htok
      simpa [supHolds] using htok
    · intro i hi
      have := hown i hi
      simp [hs, dialled, postDial, hr] at this
      simp [dialled, postDial, this]
  | setConnected ix =>
    simp only [reconnectStep] at h
    cases h
    constructor
    · rw [hs] at htok
      simpa [supHolds] using htok
    · intro i hi
      have := hown i hi
      simp [hs, dialled, postDial] at this
      simp [dialled, postDial, this]
  | setDisconnected ix =>
    have hno := hinv.no_open (by rw [hs]; rfl) (by rw [hs]; rfl) (by rw [hs]; rfl)
    simp only [reconnectStep] at h
    cases h
    constructor
    · rw [hs] at htok
      simpa [supHolds] using htok
    · intro i hi
      simp [hno i] at hi
  | logError ix =>
    have hno := hinv.no_open (by rw [hs]; rfl) (by rw [hs]; rfl) (by rw [hs]; rfl)
    simp only [reconnectStep] at h
    cases h
    constructor
    · rw [hs] at htok
      simpa [supHolds] using htok
    · intro i hi
      simp [hno i] at hi
  | requeue ix =>
    have hno := hinv.no_open (by rw [hs]; rfl) (by rw [hs]; rfl) (by rw [hs]; rfl)
    simp only [reconnectStep, chanSend] at h
    split at h
    · cases h
    · rename_i q hq
      split at hq
      · cases hq
        cases h
        constructor
        · rw [hs] at htok
          simp only [supHolds] at htok ⊢
          rw [chanTokens_append]
          split <;> omega
        · intro i hi
          simp [hno i] at hi
      · cases hq
  | logOk =>
    simp only [reconnectStep] at h
    cases h
    constructor
    · rw [hs] at htok
      simpa [supHolds] using htok
    · intro i hi
      have := hown i hi
      simp [hs, dialled, postDial] at this
      simp [dialled, postDial, this]
  | goRun =>
    simp only [reconnectStep] at h
    cases h
    constructor
    · rw [hs] at htok
      simpa [supHolds] using htok
    · intro i hi
      have := hown i hi
      simp [hs, dialled, postDial] at this
      simp [dialled, postDial, this]
  | goRead =>
    simp only [reconnectStep] at h
    cases h
    constructor
    · rw [hs] at htok
      simp [supHolds] at htok ⊢
      omega
    · intro i hi
      have := hown i hi
      simp [hs, dialled, postDial] at this
      simp [dialled, postDial, this, preClose]

theorem supHolds_zero {sup : Option SupPC} (h : supHolds sup = 0) :
    dialled sup = none ∧ postDial sup = false := by
  cases sup with
  | none => exact ⟨rfl, rfl⟩
  | some pc => cases pc <;> first | exact ⟨rfl, rfl⟩ | simp [supHolds] at h

theorem inv_read {s s1 : Sys} {i : Nat} {pc : ReadPC} {err : Bool} (hinv : Inv s)
    (hget : s.readers[i]? = some pc) (h : startReadAsyncStep s i pc err = some s1) : Inv s1 := by
  have htok := hinv.token
  have hown := hinv.owner
  obtain ⟨hr, hi0⟩ := single_of_get (by omega) hget
  subst hi0
  rw [hr] at htok hown
  simp only [List.length_singleton] at htok
  have hsup : supHolds s.sup = 0 := by omega
  obtain ⟨hd, hp⟩ := supHolds_zero hsup
  simp only [hd, hp, List.any_cons, List.any_nil, Bool.or_false] at hown
  cases pc with
  | start =>
    simp only [startReadAsyncStep] at h
    split at h <;> cases h
    · exact ⟨by simpa [Sys.panic, hr] using hinv.token, by simpa [Sys.panic] using hinv.owner⟩
    · constructor
      · simpa [hr] using htok
      · intro j hj
        have := hown j hj
        simp [hd, hp, hr, preClose] at this ⊢
        exact this
  | reading k =>
    simp only [startReadAsyncStep] at h
    cases h
    constructor
    · simpa [hr] using htok
    · intro j hj
      have := hown j hj
      simp [hd, hp, hr, preClose] at this ⊢
      exact this
  | pushNil =>
    simp only [startReadAsyncStep, chanSend] at h
    split at h
    · cases h
    · rename_i q hq
      split at hq <;> cases hq
      cases h
      constructor
      · simpa [hr] using htok
      · intro j hj
        have := hown j hj
        simp [hd, hp, hr, preClose] at this ⊢
        exact this
  | closeSock =>
    simp only [startReadAsyncStep] at h
    split at h <;> cases h
    · exact ⟨by simpa [Sys.panic, hr] using hinv.token, by simpa [Sys.panic] using hinv.owner⟩
    · rename_i k hk
      constructor
      · simpa [hr] using htok
      · intro j hj
        exfalso
        simp only [sockOpen_closeAt, Bool.and_eq_true, bne_iff_ne, ne_eq] at hj
        have := hown j hj.1
        simp [hk, preClose] at this
        exact hj.2 this.symm
  | clearConnected =>
    simp only [startReadAsyncStep] at h
    cases h
    constructor
    · simpa [hr] using htok
    · intro j hj
      have := hown j hj
      simp [preClose] at this
  | rearm =>
    simp only [startReadAsyncStep, chanSend] at h
    split at h
    · cases h
    · rename_i q hq
      split at hq <;> cases hq
      cases h
      constructor
      · simp only [hr, List.eraseIdx_cons_zero, List.length_nil, chanTokens_append]
        simp
        omega
      · intro j hj
        have := hown j hj
        simp [preClose] at this

theorem inv_close {s s1 : Sys} {i : Nat} {pc : ClosePC} (hinv : Inv s)
    (h : closeStep s i pc = some s1) : Inv s1 := by
  have htok := hinv.token
  have hown := hinv.owner
  cases pc with
  | pushStop =>
    simp only [closeStep, chanSend] at h
    split at h
    · cases h
    · rename_i q hq
      split at hq <;> cases hq
      cases h
      exact ⟨by simpa [chanTokens_append] using htok, hown⟩
  | pushNil =>
    simp only [closeStep, chanSend] at h
    split at h
    · cases h
    · rename_i q hq
      split at hq <;> cases hq
      cases h
      exact ⟨htok, hown⟩
  | closeSock =>
    simp only [closeStep] at h
    split at h <;> cases h
    · exact ⟨htok, hown⟩
    · constructor
      · exact htok
      · intro j hj
        simp only [sockOpen_closeAt, Bool.and_eq_true] at hj
        exact hown j hj.1
  | clearConnected =>
    simp only [closeStep] at h
    cases h
    exact ⟨htok, hown⟩

theorem inv_run {s s1 : Sys} {i : Nat} {pc : RunPC} {out : WriteOutcome} (hinv : Inv s)
    (h : runStep s i pc out = some s1) : Inv s1 := by
  have htok := hinv.token
  have hown := hinv.owner
  cases pc with
  | recv =>
    simp only [runStep] at h
    split at h <;> cases h <;> exact ⟨htok, hown⟩
  | write buf =>
    simp only [runStep] at h
    split at h <;> cases h <;> exact ⟨htok, hown⟩

/-- Every step keeps the invariant. -/
theorem inv_step (s : Sys) (a : Action) (s1 : Sys) (hinv : Inv s) (h : step s a = some s1) :
    Inv s1 := by
  unfold step at h
  split at h
  · cases h
  · cases a with
    | sup ok =>
      simp only at h
      split at h
      · cases h
      · rename_i pc hs
        exact inv_sup hinv hs h
    | run i out =>
      simp only at h
      split at h
      · cases h
      · exact inv_run hinv h
    | read i err =>
      simp only at h
      split at h
      · cases h
      · rename_i pc hget
        exact inv_read hinv hget h
    | close i =>
      simp only at h
      split at h
      · cases h
      · exact inv_close hinv h
    | callClose =>
      cases h
      exact ⟨hinv.token, hinv.owner⟩
    | write data =>
      simp only [tsdbConn.Write, chanSend] at h
      split at h
      · cases h
      · rename_i q hq
        split at hq <;> cases hq
        cases h
        exact ⟨hinv.token, hinv.owner⟩

theorem reachable_inv (s : Sys) (h : Reachable s) : Inv s :=
  reachable_invariant Inv inv_createTsdb inv_step s h

/-- Under the invariant at most one dialled socket is open. -/
theorem Inv.single_socket {s : Sys} (hinv : Inv s) : openCount s.socks ≤ 1 := by
  apply Tsdb.openCount_le_one
  intro i j hi hj
  have h1 := hinv.owner i hi
  have h2 := hinv.owner j hj
  rcases h1 with h1 | h1 <;> rcases h2 with h2 | h2
  · rw [h1] at h2
    exact Option.some.inj h2
  · exfalso
    have hsup : supHolds s.sup = 1 := by
      cases hsv : s.sup with
      | none => simp [hsv, dialled] at h1
      | some pc => cases pc <;> first | rfl | simp [hsv, dialled] at h1
    have hp : postDial s.sup = false := by
      cases hsv : s.sup with
      | none => rfl
      | some pc => cases pc <;> first | rfl | simp [hsv, dialled] at h1
    simp [hp, hinv.readers_nil hsup] at h2
  · exfalso
    have hsup : supHolds s.sup = 1 := by
      cases hsv : s.sup with
      | none => simp [hsv, dialled] at h2
      | some pc => cases pc <;> first | rfl | simp [hsv, dialled] at h2
    have hp : postDial s.sup = false := by
      cases hsv : s.sup with
      | none => rfl
      | some pc => cases pc <;> first | rfl | simp [hsv, dialled] at h2
    simp [hp, hinv.readers_nil hsup] at h1
  · have := h1.1.symm.trans h2.1
    exact Option.some.inj this

/-! ## The write-drain goroutine run on its own -/

theorem set_set_self {α : Type} (l : List α) (i : Nat) (x y : α) (h : l[i]? = some x) :
    (l.set i y).set i x = l := by
  induction l generalizing i with
  | nil => simp at h
  | cons a rest ih =>
    cases i with
    | zero =>
      simp at h
      simp [h]
    | succ n =>
      simp at h
      simp [ih n h]

theorem getElem?_set_same {α : Type} (l : List α) (i : Nat) (x y : α) (h : l[i]? = some x) :
    (l.set i y)[i]? = some y := by
  induction l generalizing i with
  | nil => simp at h
  | cons a rest ih =>
    cases i with
    | zero => simp
    | succ n =>
      simp at h
      simp [ih n h]

theorem netWrite_ok {socks : List Sock} {h : Nat} (ho : sockOpen socks h = true) :
    netWrite socks (some h) .ok = .ok h := by
  unfold sockOpen at ho
  unfold netWrite
  cases hk : socks[h]? with
  | none => simp [hk] at ho
  | some k =>
    simp [hk] at ho
    simp [hk, ho]

/-- One buffer taken from the queue and written: the two statements of one
loop round of `run`. -/
theorem run_round (s : Sys) (i h : Nat) (b : Bytes) (rest : List (Option Bytes))
    (hp : s.panicked = false) (hr : s.runs[i]? = some .recv) (hc : s.c.conn = some h)
    (ho : sockOpen s.socks h = true) (hq : s.c.writeChan = some b :: rest) :
    exec s [.run i .ok, .run i .ok] =
      some { s with c := { s.c with writeChan := rest }
                    events := s.events ++ [.sockWrite h b] } := by
  have h1 : step s (.run i .ok) =
      some { s with c := { s.c with writeChan := rest }, runs := s.runs.set i (.write b) } := by
    simp [step, hp, hr, runStep, hq]
  have h2 : step { s with c := { s.c with writeChan := rest }, runs := s.runs.set i (.write b) }
      (.run i .ok) = some { s with c := { s.c with writeChan := rest }
                                   events := s.events ++ [.sockWrite h b] } := by
    simp [step, hp, getElem?_set_same _ _ _ _ hr, runStep, tsdbConn.write, hc, netWrite_ok ho,
      set_set_self _ _ _ _ hr]
  simp [exec, h1, h2]

/-- The `run` goroutine on the queue content `q`: it writes the buffers before
the first nil entry in order, takes that entry and ends, and leaves what
follows in the queue. -/
theorem drain_exec (i h : Nat) (q : List (Option Bytes)) :
    ∀ (s : Sys), s.c.writeChan = q → s.panicked = false → s.runs[i]? = some .recv →
      s.c.conn = some h → sockOpen s.socks h = true →
      exec s (drainSched i q) = some (s.afterDrain h
        ((q.takeWhile Option.isSome).filterMap id)
        ((q.dropWhile Option.isSome).drop 1)
        (if q.all Option.isSome then s.runs else s.runs.eraseIdx i)) := by
  induction q with
  | nil =>
    intro s hq hp hr hc ho
    obtain ⟨c, socks, now, events, sup, runs, readers, closers, panicked⟩ := s
    obtain ⟨conn, wt, ct, connected, writeChan, reconnectChan, addr⟩ := c
    simp only at hq
    subst hq
    simp [drainSched, exec, Sys.afterDrain]
  | cons e rest ih =>
    intro s hq hp hr hc ho
    cases e with
    | none =>
      simp [drainSched, exec, step, hp, hr, runStep, hq, Sys.afterDrain]
    | some b =>
      have hround := run_round s i h b rest hp hr hc ho hq
      have hex : exec s (drainSched i (some b :: rest)) =
          (exec s [.run i .ok, .run i .ok]).bind (fun t => exec t (drainSched i rest)) := by
        rw [← exec_append]
        rfl
      have hih := ih { s with c := { s.c with writeChan := rest }
                              events := s.events ++ [.sockWrite h b] } rfl hp hr hc ho
      rw [hex, hround]
      simp only [Option.bind]
      rw [hih]
      simp [Sys.afterDrain]

/-! ## C10: the nil buffer is the stop sentinel -/

/-- C10: with the `i`-th `run` goroutine at its receive, the socket in
`conn.conn` open and every write succeeding, running the goroutine on queue
content `q` writes exactly the buffers before the first nil entry, in order,
removes that entry and ends the goroutine, and leaves every later entry in the
queue; on a nil-free queue it writes everything and then waits at the empty
queue.  The nil entry is the same queue entry whether `Close`, a read-drain
goroutine or a caller's `Write(nil)` appended it. -/
theorem run_sentinel_semantics (s : Sys) (i h : Nat) (hp : s.panicked = false)
    (hr : s.runs[i]? = some .recv) (hc : s.c.conn = some h)
    (ho : sockOpen s.socks h = true) :
    exec s (drainSched i s.c.writeChan) = some
      { s with c := { s.c with writeChan := (s.c.writeChan.dropWhile Option.isSome).drop 1 }
               events := s.events ++
                 ((s.c.writeChan.takeWhile Option.isSome).filterMap id).map (Event.sockWrite h)
               runs := if s.c.writeChan.all Option.isSome then s.runs
                       else s.runs.eraseIdx i } ∧
    (s.c.writeChan.all Option.isSome = true →
      ∀ t, exec s (drainSched i s.c.writeChan) = some t →
        t.c.writeChan = [] ∧ t.runs = s.runs ∧ ∀ out, step t (.run i out) = none) ∧
    (∀ (t : Sys) (j : Nat) (err : Bool),
      (tsdbConn.Write t none).map (fun u => u.c.writeChan) =
          chanSend writeChanCap t.c.writeChan none ∧
      (closeStep t j .pushNil).map (fun u => u.c.writeChan) =
          chanSend writeChanCap t.c.writeChan none ∧
      (startReadAsyncStep t j .pushNil err).map (fun u => u.c.writeChan) =
          chanSend writeChanCap t.c.writeChan none) := by
  have hd := drain_exec i h s.c.writeChan s rfl hp hr hc ho
  refine ⟨hd, ?_, ?_⟩
  · intro hall t ht
    rw [hd] at ht
    cases ht
    have hdrop : (s.c.writeChan.dropWhile Option.isSome).drop 1 = [] := by
      have : s.c.writeChan.dropWhile Option.isSome = [] := by
        rw [List.dropWhile_eq_nil_iff]
        intro x hx
        exact List.all_eq_true.mp hall x hx
      simp [this]
    refine ⟨by simp [Sys.afterDrain, hdrop], by simp [Sys.afterDrain, hall], ?_⟩
    intro out
    simp [step, Sys.afterDrain, hp, hall, hr, runStep, hdrop]
  · intro t j err
    refine ⟨?_, ?_, ?_⟩
    · unfold tsdbConn.Write
      cases chanSend writeChanCap t.c.writeChan none <;> rfl
    · simp only [closeStep]
      cases chanSend writeChanCap t.c.writeChan none <;> rfl
    · simp only [startReadAsyncStep]
      cases chanSend writeChanCap t.c.writeChan none <;> rfl

/-! ## At most one write-drain goroutine on a nil-free queue -/

theorem flag_sup {s s1 : Sys} {pc : SupPC} {ok : Bool} (hinv : Inv s) (hk : FlagOk s)
    (hs : s.sup = some pc) (h : reconnectStep s pc ok = some s1) : FlagOk s1 := by
  have hnil : supHolds s.sup = 1 → s.readers = [] := hinv.readers_nil
  unfold FlagOk at hk ⊢
  rw [hs] at hk hnil
  cases pc <;> simp only [reconnectStep, chanSend] at h <;> repeat' (split at h)
  all_goals try cases h
  all_goals simp [supHolds, postConn, Sys.panic, hs] at hnil hk ⊢
  all_goals exact hk

theorem flag_read {s s1 : Sys} {i : Nat} {pc : ReadPC} {err : Bool} (hinv : Inv s)
    (hk : FlagOk s) (hget : s.readers[i]? = some pc) (h : startReadAsyncStep s i pc err = some s1) :
    FlagOk s1 := by
  have htok := hinv.token
  obtain ⟨hr, hi0⟩ := single_of_get (by omega) hget
  subst hi0
  have hsup : supHolds s.sup = 0 := by
    rw [hr] at htok
    simp only [List.length_singleton] at htok
    omega
  have hpc : postConn s.sup = false := by
    cases hsv : s.sup with
    | none => rfl
    | some p => cases p <;> first | rfl | simp [hsv, supHolds] at hsup
  unfold FlagOk at hk ⊢
  rw [hr, hpc] at hk
  cases pc <;> simp only [startReadAsyncStep, chanSend] at h <;> repeat' (split at h)
  all_goals try cases h
  all_goals simp [hpc, hr, Sys.panic] at hk ⊢
  all_goals exact hk

theorem flag_step (s : Sys) (a : Action) (s1 : Sys) (hinv : Inv s) (hk : FlagOk s)
    (h : step s a = some s1) : FlagOk s1 := by
  unfold step at h
  split at h
  · cases h
  · cases a with
    | sup ok =>
      simp only at h
      split at h
      · cases h
      · rename_i pc hs
        exact flag_sup hinv hk hs h
    | run i out =>
      simp only at h
      split at h
      · cases h
      · rename_i pc _
        unfold FlagOk at hk ⊢
        cases pc <;> simp only [runStep] at h <;> repeat' (split at h)
        all_goals try cases h
        all_goals exact hk
    | read i err =>
      simp only at h
      split at h
      · cases h
      · rename_i pc hget
        exact flag_read hinv hk hget h
    | close i =>
      simp only at h
      split at h
      · cases h
      · rename_i pc _
        unfold FlagOk at hk ⊢
        cases pc <;> simp only [closeStep, chanSend] at h <;> repeat' (split at h)
        all_goals try cases h
        all_goals first | exact hk | (intro hc; simp at hc)
    | callClose =>
      cases h
      exact hk
    | write data =>
      simp only [tsdbConn.Write, chanSend] at h
      repeat' (split at h)
      all_goals try cases h
      all_goals exact hk

/-- The two invariants together hold in every reachable state. -/
theorem reachable_flag (s : Sys) (h : Reachable s) : Inv s ∧ FlagOk s := by
  refine reachable_invariant (fun t => Inv t ∧ FlagOk t) ?_ ?_ s h
  · intro addr ct wt
    exact ⟨inv_createTsdb addr ct wt, by simp [FlagOk, createTsdb]⟩
  · intro t a t1 ht hstep
    exact ⟨inv_step t a t1 ht.1 hstep, flag_step t a t1 ht.1 ht.2 hstep⟩

/-! ## C7: write errors do not re-arm reconnection -/

theorem run_frame {s s1 : Sys} {i : Nat} {out : WriteOutcome}
    (h : step s (.run i out) = some s1) :
    s1.c.reconnectChan = s.c.reconnectChan ∧ s1.c.connected = s.c.connected ∧
      s1.socks = s.socks ∧ s1.c.conn = s.c.conn ∧ s1.sup = s.sup ∧ s1.readers = s.readers := by
  unfold step at h
  split at h
  · cases h
  · simp only at h
    split at h
    · cases h
    · rename_i pc _
      cases pc <;> simp only [runStep] at h <;> repeat' (split at h)
      all_goals try cases h
      all_goals simp [Sys.panic]

theorem disconnect_task {s s1 : Sys} {a : Action} (hr : Reachable s)
    (h : step s a = some s1) (hc : s.c.connected = true) (hc1 : s1.c.connected = false) :
    a.task = .readDrain ∨ a.task = .closeCall := by
  obtain ⟨hinv, hk⟩ := reachable_flag s hr
  cases a with
  | read i err => exact Or.inl rfl
  | close i => exact Or.inr rfl
  | callClose => exact Or.inr rfl
  | run i out =>
    have := (run_frame h).2.1
    rw [hc, hc1] at this
    cases this
  | write data =>
    exfalso
    simp only [step, tsdbConn.Write, chanSend] at h
    repeat' (split at h)
    all_goals try cases h
    all_goals simp [hc] at hc1
  | sup ok =>
    exfalso
    have hnil : supHolds s.sup = 1 → s.readers = [] := hinv.readers_nil
    have hk1 := hk hc
    unfold step at h
    split at h
    · cases h
    · simp only at h
      split at h
      · cases h
      · rename_i pc hs
        rw [hs] at hnil hk1
        cases pc <;> simp only [reconnectStep, chanSend] at h <;> repeat' (split at h)
        all_goals try cases h
        all_goals simp [supHolds, postConn, Sys.panic, hc] at hnil hk1 hc1
        all_goals simp [hnil] at hk1

theorem rearm_task {s s1 : Sys} {a : Action} (h : step s a = some s1)
    (hlt : chanTokens s.c.reconnectChan < chanTokens s1.c.reconnectChan) :
    a.task = .readDrain ∨ a.task = .supervisor := by
  cases a with
  | read i err => exact Or.inl rfl
  | sup ok => exact Or.inr rfl
  | run i out =>
    rw [(run_frame h).1] at hlt
    omega
  | callClose =>
    exfalso
    simp only [step] at h
    split at h <;> cases h
    simp at hlt
  | write data =>
    exfalso
    simp only [step, tsdbConn.Write, chanSend] at h
    repeat' (split at h)
    all_goals try cases h
    all_goals simp at hlt
  | close i =>
    exfalso
    unfold step at h
    split at h
    · cases h
    · simp only at h
      split at h
      · cases h
      · rename_i pc _
        cases pc with
        | pushStop =>
          by_cases hcap : s.c.reconnectChan.length < reconnectChanCap
          · simp [closeStep, chanSend, hcap] at h
            subst h
            simp [chanTokens_append] at hlt
          · simp [closeStep, chanSend, hcap] at h
        | pushNil =>
          simp only [closeStep] at h
          split at h <;> cases h
          simp at hlt
        | closeSock =>
          simp only [closeStep] at h
          split at h <;> cases h <;> simp [Sys.panic] at hlt
        | clearConnected =>
          simp only [closeStep] at h
          cases h
          simp at hlt

/-- C7: a failing socket write inside `run` ends that goroutine at once: the
step only logs, it takes nothing more from the queue and leaves
`reconnectChan`, `connected`, `conn.conn` and the sockets as they are; no step
of a `run` goroutine ever changes them.  In every reachable state a step that
clears a set `connected` flag belongs to `startReadAsync` or to `Close`, and a
step that adds a dial request to `reconnectChan` belongs to `startReadAsync`
or to `reconnect`; so the only task whose steps do both is the read-drain
goroutine, which does both when the read side has failed. -/
theorem write_error_asymmetry :
    (∀ (s : Sys) (i : Nat) (buf : Bytes) (out : WriteOutcome) (h : Nat),
      s.panicked = false → s.runs[i]? = some (.write buf) →
      s.c.write s.socks s.now buf out = .err h →
      step s (.run i out) = some
        { s with events := s.events ++ [.sockWriteFailed h buf, .logWriteError]
                 runs := s.runs.eraseIdx i }) ∧
    (∀ (s s1 : Sys) (i : Nat) (out : WriteOutcome), step s (.run i out) = some s1 →
      s1.c.reconnectChan = s.c.reconnectChan ∧ s1.c.connected = s.c.connected ∧
        s1.socks = s.socks ∧ s1.c.conn = s.c.conn) ∧
    (∀ (s s1 : Sys) (a : Action), Reachable s → step s a = some s1 →
      s.c.connected = true → s1.c.connected = false →
      a.task = .readDrain ∨ a.task = .closeCall) ∧
    (∀ (s s1 : Sys) (a : Action), step s a = some s1 →
      chanTokens s.c.reconnectChan < chanTokens s1.c.reconnectChan →
      a.task = .readDrain ∨ a.task = .supervisor) ∧
    (∀ (t : Task),
      (∃ s s1 a, Reachable s ∧ a.task = t ∧ step s a = some s1 ∧
        s.c.connected = true ∧ s1.c.connected = false) →
      (∃ s s1 a, Reachable s ∧ a.task = t ∧ step s a = some s1 ∧
        chanTokens s.c.reconnectChan < chanTokens s1.c.reconnectChan) →
      t = .readDrain) ∧
    (Reachable readerClearing ∧ step readerClearing (.read 0 true) = some readerRearming ∧
      readerClearing.c.connected = true ∧ readerRearming.c.connected = false) ∧
    (Reachable readerRearming ∧
      (step readerRearming (.read 0 true)).map (fun s => s.c.reconnectChan) = some [0] ∧
      readerRearming.c.reconnectChan = []) := by
  refine ⟨?_, ?_, ?_, ?_, ?_,
    ⟨⟨"127.0.0.1:8282", 2, 10, okRound ++ List.replicate 4 (Action.read 0 true), by rfl⟩,
      by rfl, rfl, rfl⟩,
    ⟨⟨"127.0.0.1:8282", 2, 10, okRound ++ List.replicate 5 (Action.read 0 true), by rfl⟩,
      by rfl, rfl⟩⟩
  · intro s i buf out h hp hr hw
    simp [step, hp, hr, runStep, hw]
  · intro s s1 i out h
    have := run_frame h
    exact ⟨this.1, this.2.1, this.2.2.1, this.2.2.2.1⟩
  · intro s s1 a hr h hc hc1
    exact disconnect_task hr h hc hc1
  · intro s s1 a h hlt
    exact rearm_task h hlt
  · rintro t ⟨s, s1, a, hr, ht, h, hc, hc1⟩ ⟨u, u1, b, _, hu, hb, hlt⟩
    have h1 := disconnect_task hr h hc hc1
    have h2 := rearm_task hb hlt
    rw [ht] at h1
    rw [hu] at h2
    rcases h1 with h1 | h1
    · exact h1
    · rcases h2 with h2 | h2
      · exact h2
      · rw [h1] at h2
        cases h2

/-! ## C9: recovery after failed dials -/

theorem wrapInt_succ (k : Nat) (h : k + 1 < 2 ^ 63) : wrapInt ((k : Int) + 1) = (k : Int) + 1 := by
  unfold wrapInt
  have h1 : ((k : Int) + 1) < 2 ^ 63 := by exact_mod_cast h
  norm_num at h1 ⊢
  omega

theorem fail_round (addr : String) (ct wt : Duration) (k : Nat) (h : k + 1 < 2 ^ 63)
    (q : List (Option Bytes)) (evs : List Event) (now : Duration) :
    exec (idle addr ct wt k q evs now) failRound =
      some (idle addr ct wt (k + 1) q (evs ++ [.slept ct, .dialFailed, .logConnError])
        (now + ct)) := by
  have hk : ¬ ((k : Int) < 0) := by omega
  simp [failRound, List.replicate, exec, step, idle, reconnectStep, hk, chanSend, reconnectChanCap,
    wrapInt_succ k h]

theorem fail_rounds (addr : String) (ct wt : Duration) (q : List (Option Bytes)) (n : Nat) :
    ∀ (k : Nat) (evs : List Event) (now : Duration), k + n < 2 ^ 63 →
      exec (idle addr ct wt k q evs now) (failRounds n) =
        some (idle addr ct wt (k + n) q (evs ++ failEvents ct n) (now + n * ct)) := by
  induction n with
  | zero =>
    intro k evs now _
    simp [failRounds, failEvents, exec]
  | succ n ih =>
    intro k evs now h
    have h1 : k + 1 < 2 ^ 63 := by omega
    have h2 : k + 1 + n < 2 ^ 63 := by omega
    simp only [failRounds, exec_append, fail_round addr ct wt k h1, Option.bind]
    rw [ih (k + 1) _ _ h2]
    have e1 : k + 1 + n = k + (n + 1) := by omega
    have e2 : now + ct + n * ct = now + (n + 1) * ct := by ring
    simp [failEvents, e1, e2]

theorem ok_round (addr : String) (ct wt : Duration) (k : Nat) (q : List (Option Bytes))
    (evs : List Event) (now : Duration) :
    exec (idle addr ct wt k q evs now) okRound =
      some (firstConnected addr ct wt q (evs ++ [.slept ct, .dialOk 0, .logConnOk])
        (now + ct)) := by
  have hk : ¬ ((k : Int) < 0) := by omega
  simp [okRound, List.replicate, exec, step, idle, reconnectStep, hk, firstConnected]

theorem recovery_sup (addr : String) (ct wt : Duration) (n : Nat) (h : n < 2 ^ 63) :
    exec (createTsdb addr ct wt) (recoverySched n) =
      some (firstConnected addr ct wt []
        (failEvents ct n ++ [.slept ct, .dialOk 0, .logConnOk]) (n * ct + ct)) := by
  have h0 : createTsdb addr ct wt = idle addr ct wt 0 [] [] 0 := by
    simp [createTsdb, idle]
  have hr := fail_rounds addr ct wt [] n 0 [] 0 (by omega)
  simp only [recoverySched, exec_append, h0, hr, Option.bind, ok_round]
  simp

theorem sup_withQueue {s s1 : Sys} {ok : Bool} (q : List (Option Bytes))
    (h : step s (.sup ok) = some s1) :
    step (s.withQueue q) (.sup ok) = some (s1.withQueue q) := by
  unfold step at h ⊢
  split at h
  · cases h
  · rename_i hp
    simp only at h
    split at h
    · cases h
    · rename_i pc hs
      have hp1 : (s.withQueue q).panicked = s.panicked := rfl
      have hs1 : (s.withQueue q).sup = s.sup := rfl
      simp only [hp1, hp, hs1, hs]
      cases pc <;> simp only [reconnectStep, chanSend] at h ⊢ <;> repeat' (split at h)
      all_goals try cases h
      all_goals simp_all [Sys.withQueue, Sys.panic]

theorem exec_alive {s t : Sys} {xs : List Action} (h : exec s xs = some t)
    (ht : t.panicked = false) : s.panicked = false := by
  cases xs with
  | nil =>
    simp only [exec, Option.some.injEq] at h
    rw [h]
    exact ht
  | cons a rest =>
    simp only [exec] at h
    cases hp : s.panicked with
    | false => rfl
    | true => simp [step, hp] at h

theorem sup_queue {s s1 : Sys} {ok : Bool} (h : step s (.sup ok) = some s1) :
    s1.c.writeChan = s.c.writeChan := by
  unfold step at h
  split at h
  · cases h
  · simp only at h
    split at h
    · cases h
    · rename_i pc _
      cases pc <;> simp only [reconnectStep, chanSend] at h <;> repeat' (split at h)
      all_goals try cases h
      all_goals simp [Sys.panic]

theorem sup_exec_withQueue (xs : List Action) (hall : ∀ a ∈ xs, isSup a = true) :
    ∀ (s t : Sys) (q : List (Option Bytes)), exec s xs = some t →
      exec (s.withQueue q) xs = some (t.withQueue q) := by
  induction xs with
  | nil =>
    intro s t q h
    simp only [exec, Option.some.injEq] at h ⊢
    rw [h]
  | cons a rest ih =>
    intro s t q h
    simp only [exec] at h ⊢
    cases hs : step s a with
    | none => simp [hs] at h
    | some s1 =>
      rw [hs] at h
      have ha := hall a (List.mem_cons_self _ _)
      cases a with
      | sup ok =>
        rw [sup_withQueue q hs]
        exact ih (fun x hx => hall x (List.mem_cons_of_mem _ hx)) s1 t q h
      | _ => simp [isSup] at ha

theorem write_step {s : Sys} (b : Option Bytes) (hp : s.panicked = false)
    (hcap : s.c.writeChan.length < writeChanCap) :
    step s (.write b) = some (s.withQueue (s.c.writeChan ++ [b])) := by
  simp [step, hp, tsdbConn.Write, chanSend, hcap, Sys.withQueue]

/-- Caller `Write`s interleaved with supervisor statements: the supervisor
does what it does without them, and the queue collects the buffers in call
order. -/
theorem interleave (sched : List Action) :
    ∀ (s t : Sys), (∀ a ∈ sched, isSup a = true ∨ ∃ b, a = .write (some b)) →
      exec s (sched.filter isSup) = some t → t.panicked = false →
      s.c.writeChan.length + (submitted sched).length ≤ writeChanCap →
      exec s sched = some (t.withQueue (s.c.writeChan ++ (submitted sched).map some)) := by
  induction sched with
  | nil =>
    intro s t _ h _ _
    simp only [List.filter_nil, exec, Option.some.injEq] at h
    subst h
    simp [exec, submitted, Sys.withQueue]
  | cons a rest ih =>
    intro s t hall h ht hcap
    have hrest : ∀ x ∈ rest, isSup x = true ∨ ∃ b, x = .write (some b) :=
      fun x hx => hall x (List.mem_cons_of_mem _ hx)
    rcases hall a (List.mem_cons_self _ _) with ha | ⟨b, ha⟩
    · cases a with
      | sup ok =>
        simp only [List.filter, isSup, exec] at h ⊢
        cases hs : step s (.sup ok) with
        | none => simp [hs] at h
        | some s1 =>
          rw [hs] at h
          simp only
          have hq := sup_queue hs
          have := ih s1 t hrest h ht (by rw [hq]; simpa [submitted] using hcap)
          rw [this, hq]
          simp [submitted]
      | _ => simp [isSup] at ha
    · subst ha
      simp only [List.filter, isSup] at h
      have hp : s.panicked = false := exec_alive h ht
      have hlen : s.c.writeChan.length < writeChanCap := by
        simp only [submitted, List.length_cons] at hcap
        omega
      simp only [exec, write_step (some b) hp hlen]
      have hfil : ∀ x ∈ rest.filter isSup, isSup x = true :=
        fun x hx => (List.mem_filter.mp hx).2
      have h1 := sup_exec_withQueue _ hfil s t (s.c.writeChan ++ [some b]) h
      have := ih _ _ hrest h1 ht (by
        simp only [submitted, List.length_cons] at hcap
        simp [Sys.withQueue]
        omega)
      rw [this]
      simp [Sys.withQueue, submitted]

theorem drain_first (addr : String) (ct wt : Duration) (bs : List Bytes) (evs : List Event)
    (now : Duration) :
    exec (firstConnected addr ct wt (bs.map some) evs now) (drainSched 0 (bs.map some)) =
      some (firstConnected addr ct wt [] (evs ++ bs.map (Event.sockWrite 0)) now) := by
  have hall : ∀ x ∈ bs.map some, Option.isSome x = true := by
    intro x hx
    obtain ⟨b, _, rfl⟩ := List.mem_map.mp hx
    rfl
  have hd := drain_exec 0 0 (bs.map some) (firstConnected addr ct wt (bs.map some) evs now)
    rfl rfl rfl rfl rfl
  rw [hd, List.takeWhile_eq_self_iff.mpr hall, List.dropWhile_eq_nil_iff.mpr hall,
    List.all_eq_true.mpr hall]
  simp [Sys.afterDrain, firstConnected, List.filterMap_map]

/-- C9 (as amended): for `n < 2^63` failed dials followed by a successful one,
with callers' `Write`s of non-nil buffers (at most the queue capacity)
interleaved anywhere among the supervisor's statements: after `k ≤ n` failures
the queue holds exactly the attempt counter `k`; the whole schedule runs
through and ends with `n` times (sleep of the connect delay, failed dial, one
error log line) followed by one sleep, the successful dial and the success log
line, `connected` set, socket 0 stored and open, one `run` and one
`startReadAsync` goroutine started and the submitted buffers queued in call
order; and the `run` goroutine, its writes succeeding, then writes exactly
those buffers to the new socket in that order. -/
theorem recovery (addr : String) (ct wt : Duration) (n : Nat) (hn : n < 2 ^ 63)
    (sched : List Action)
    (hall : ∀ a ∈ sched, isSup a = true ∨ ∃ b, a = .write (some b))
    (hsup : sched.filter isSup = recoverySched n)
    (hcap : (submitted sched).length ≤ writeChanCap) :
    (∀ k, k ≤ n → exec (createTsdb addr ct wt) (failRounds k) =
      some (idle addr ct wt k [] (failEvents ct k) (k * ct))) ∧
    exec (createTsdb addr ct wt) sched =
      some (firstConnected addr ct wt ((submitted sched).map some)
        (failEvents ct n ++ [.slept ct, .dialOk 0, .logConnOk]) (n * ct + ct)) ∧
    exec (firstConnected addr ct wt ((submitted sched).map some)
        (failEvents ct n ++ [.slept ct, .dialOk 0, .logConnOk]) (n * ct + ct))
      (drainSched 0 ((submitted sched).map some)) =
      some (firstConnected addr ct wt []
        (failEvents ct n ++ [.slept ct, .dialOk 0, .logConnOk] ++
          (submitted sched).map (Event.sockWrite 0)) (n * ct + ct)) := by
  refine ⟨?_, ?_, drain_first addr ct wt _ _ _⟩
  · intro k hk
    have h0 : createTsdb addr ct wt = idle addr ct wt 0 [] [] 0 := by
      simp [createTsdb, idle]
    have := fail_rounds addr ct wt [] k 0 [] 0 (by omega)
    simpa [h0] using this
  · have hs := recovery_sup addr ct wt n hn
    rw [← hsup] at hs
    have := interleave sched _ _ hall hs rfl (by simpa [createTsdb] using hcap)
    rw [this]
    simp [Sys.withQueue, firstConnected, createTsdb]

/-- C9 (as stated, refuted): a caller's `Write(nil)` followed by
`Write("hi")` before the first, successful dial is two enqueued buffers; the
`run` goroutine takes the nil one and ends, nothing is written to the new
socket, `"hi"` stays queued and no write-drain goroutine is left. -/
theorem recovery_nil_counterexample :
    (exec (createTsdb "127.0.0.1:8282" 2 10)
        ([.write none, .write (some [104, 105])] ++ recoverySched 0 ++ [.run 0 .ok])).map
      (fun s => (s.c.connected, s.c.conn, s.runs, s.c.writeChan, s.events)) =
    some (true, some 0, [], [some [104, 105]], [.slept 2, .dialOk 0, .logConnOk]) := by
  rfl

/-! ## C3: at most one open socket -/

/-- C3: in every state reachable from `createTsdb` by any interleaving of the
statements of `reconnect`/`connect`, `startReadAsync`, `run`, `Write` and
`Close`, whatever dials and reads fail, at most one of the sockets dialled by
the connection is open. -/
theorem single_socket_invariant (s : Sys) (h : Reachable s) : openCount s.socks ≤ 1 :=
  (reachable_inv s h).single_socket

/-! ## C5: what happens after `Close` has returned -/

/-- C5 (evaluation of the code): `Close` is called in state Disconnected with
the re-arm request 0 queued.  When `Close` has returned (no call in flight)
the stop request sits behind that 0, no socket is open and `connected` is
false.  The supervisor then still takes the 0, sleeps, dials socket 1 and
sets `connected`, and only then stops; the new `run` goroutine writes the
queued buffer to socket 1, which stays open with nobody left to reconnect. -/
theorem close_does_not_stop_pending_reconnect :
    (exec (createTsdb "127.0.0.1:8282" 2 10) (lostConnection ++ closeCall)).map
        (fun s => (s.closers, s.c.connected, s.c.reconnectChan, s.c.writeChan,
          openCount s.socks, s.events)) =
      some ([], false, [0, -1], [some [104, 105], none], 0,
        [.slept 2, .dialOk 0, .logConnOk, .logReadError, .sockClose 0, .sockClose 0]) ∧
    (exec (createTsdb "127.0.0.1:8282" 2 10) (lostConnection ++ closeCall ++ afterClose)).map
        (fun s => (s.sup, s.c.connected, s.c.conn, openCount s.socks, s.events)) =
      some (none, true, some 1, 1,
        [.slept 2, .dialOk 0, .logConnOk, .logReadError, .sockClose 0, .sockClose 0,
          .slept 2, .dialOk 1, .logConnOk, .logStopping, .sockWrite 1 [104, 105]]) := by
  constructor <;> rfl

/-! ## C6: `Close` before the first successful dial -/

/-- C6 (evaluation of the code): on the connection `createTsdb` returns,
`conn.conn` is still the nil interface; `Close` enqueues -1 and the nil
sentinel and then panics at `conn.conn.Close()` instead of returning. -/
theorem close_before_first_dial_panics (addr : String) (ct wt : Duration) :
    tsdbConn.Close (createTsdb addr ct wt) = .panicked
      { c := { conn := none
               writeTimeout := wt
               connectTimeout := ct
               connected := false
               writeChan := [none]
               reconnectChan := [0, -1]
               addr := addr }
        socks := []
        now := 0
        events := []
        sup := some .recv
        runs := []
        readers := []
        closers := [.closeSock]
        panicked := true } := by
  rfl

/-! ## C8: the write deadline -/

theorem closeAt_deadline (l : List Sock) (h : Nat) :
    ∀ k ∈ closeAt l h, ∃ k1 ∈ l, k.writeDeadline = k1.writeDeadline := by
  induction l generalizing h with
  | nil => intro k hk; simp [closeAt] at hk
  | cons a rest ih =>
    intro k hk
    cases h with
    | zero =>
      simp only [closeAt, List.mem_cons] at hk
      rcases hk with hk | hk
      · exact ⟨a, List.mem_cons_self _ _, by rw [hk]⟩
      · exact ⟨k, List.mem_cons_of_mem _ hk, rfl⟩
    | succ m =>
      simp only [closeAt, List.mem_cons] at hk
      rcases hk with hk | hk
      · exact ⟨a, List.mem_cons_self _ _, by rw [hk]⟩
      · obtain ⟨k1, hk1, he⟩ := ih m k hk
        exact ⟨k1, List.mem_cons_of_mem _ hk1, he⟩

/-- No statement of the program sets a write deadline on any socket. -/
theorem reachable_no_deadline (s : Sys) (h : Reachable s) :
    ∀ k ∈ s.socks, k.writeDeadline = none := by
  refine reachable_invariant (fun t => ∀ k ∈ t.socks, k.writeDeadline = none) ?_ ?_ s h
  · intro addr ct wt k hk
    simp [createTsdb] at hk
  · intro t a t1 ht hstep k hk
    rcases step_socks hstep with he | ⟨j, he⟩ | he
    · rw [he] at hk
      exact ht k hk
    · rw [he] at hk
      obtain ⟨k1, hk1, hd⟩ := closeAt_deadline _ _ k hk
      rw [hd]
      exact ht k1 hk1
    · rw [he] at hk
      rcases List.mem_append.mp hk with hk | hk
      · exact ht k hk
      · simp only [List.mem_singleton] at hk
        rw [hk]

/-- C8 (evaluation of the code): the result of `tsdbConn.write` is the same
for every value of `writeTimeout`; and once the first connection is up and
`run` has taken a buffer, the socket has no write deadline, and a write the
peer does not take is not answered by an error but blocks, whatever
`writeTimeout` is. -/
theorem write_sets_no_deadline :
    (∀ (conn : tsdbConn) (socks : List Sock) (now : Duration) (data : Bytes)
        (out : WriteOutcome) (wt : Duration),
      tsdbConn.write { conn with writeTimeout := wt } socks now data out =
        tsdbConn.write conn socks now data out) ∧
    (∀ (addr : String) (ct wt : Duration) (b : Bytes),
      (exec (createTsdb addr ct wt) (.write (some b) :: okRound ++ [.run 0 .ok])).map
          (fun s => (s.runs, s.c.conn, s.socks, s.c.writeTimeout)) =
        some ([.write b], some 0, [{ isOpen := true, writeDeadline := none }], wt) ∧
      exec (createTsdb addr ct wt)
          (.write (some b) :: okRound ++ [.run 0 .ok, .run 0 .stall]) = none) := by
  refine ⟨?_, ?_⟩
  · intro conn socks now data out wt
    rfl
  · intro addr ct wt b
    constructor <;> rfl

/-! ## Concrete instances of the theorems -/

theorem demoPool_wf : demoPool.WF :=
  ⟨[("node-a", 0)], rfl, by decide, by decide, by decide⟩

theorem pool_write_affinity_witness :
    demoPool.WF ∧
      mapGet (tsdbConnPool.Write demoPool "node-b" (some [104, 105])).world.tsdb.pool "node-b" =
        tsdbConnPool.target demoPool "node-b" :=
  ⟨demoPool_wf, (pool_write_affinity demoPool demoPool_wf "node-b" (some [104, 105])).2.2.1⟩

theorem demoConnected_reachable : Reachable demoConnected :=
  ⟨"127.0.0.1:8282", 2, 10, okRound, rfl⟩

theorem single_socket_invariant_witness :
    Reachable demoConnected ∧ openCount demoConnected.socks ≤ 1 :=
  ⟨demoConnected_reachable, single_socket_invariant demoConnected demoConnected_reachable⟩

theorem write_error_asymmetry_witness :
    demoWriting.panicked = false ∧ demoWriting.runs[0]? = some (.write [1]) ∧
    demoWriting.c.write demoWriting.socks demoWriting.now [1] .fail = .err 0 ∧
    step demoWriting (.run 0 .fail) = some
      { demoWriting with
          events := demoWriting.events ++ [.sockWriteFailed 0 [1], .logWriteError]
          runs := demoWriting.runs.eraseIdx 0 } :=
  ⟨rfl, rfl, rfl, write_error_asymmetry.1 demoWriting 0 [1] .fail 0 rfl rfl rfl⟩

theorem supOrWrite_spec {a : Action} (h : supOrWrite a = true) :
    isSup a = true ∨ ∃ b, a = .write (some b) := by
  cases a with
  | sup ok => exact Or.inl rfl
  | write data =>
    cases data with
    | none => simp [supOrWrite] at h
    | some b => exact Or.inr ⟨b, rfl⟩
  | _ => simp [supOrWrite] at h

theorem demoRecovery_shape :
    ∀ a ∈ demoRecovery, isSup a = true ∨ ∃ b, a = .write (some b) := by
  have h : ∀ a ∈ demoRecovery, supOrWrite a = true := by decide
  exact fun a ha => supOrWrite_spec (h a ha)

theorem recovery_witness :
    2 < 2 ^ 63 ∧
    (∀ a ∈ demoRecovery, isSup a = true ∨ ∃ b, a = .write (some b)) ∧
    demoRecovery.filter isSup = recoverySched 2 ∧
    (submitted demoRecovery).length ≤ writeChanCap ∧
    exec (createTsdb "127.0.0.1:8282" 2 10) demoRecovery =
      some (firstConnected "127.0.0.1:8282" 2 10 ((submitted demoRecovery).map some)
        (failEvents 2 2 ++ [.slept 2, .dialOk 0, .logConnOk]) (2 * 2 + 2)) :=
  ⟨by norm_num, demoRecovery_shape, rfl, by decide,
    (recovery "127.0.0.1:8282" 2 10 2 (by norm_num) demoRecovery demoRecovery_shape rfl
      (by decide)).2.1⟩

theorem run_sentinel_semantics_witness :
    demoQueued.panicked = false ∧ demoQueued.runs[0]? = some .recv ∧
    demoQueued.c.conn = some 0 ∧ sockOpen demoQueued.socks 0 = true ∧
    exec demoQueued (drainSched 0 demoQueued.c.writeChan) = some
      { demoQueued with
          c := { demoQueued.c with
                  writeChan := (demoQueued.c.writeChan.dropWhile Option.isSome).drop 1 }
          events := demoQueued.events ++
            ((demoQueued.c.writeChan.takeWhile Option.isSome).filterMap id).map
              (Event.sockWrite 0)
          runs := if demoQueued.c.writeChan.all Option.isSome then demoQueued.runs
                  else demoQueued.runs.eraseIdx 0 } :=
  ⟨rfl, rfl, rfl, rfl, (run_sentinel_semantics demoQueued 0 0 rfl rfl rfl rfl).1⟩

/-! ## `Close` after a successful dial -/

theorem concat_get {α : Type} (l : List α) (x : α) : (l ++ [x])[l.length]? = some x := by
  simp

theorem concat_set {α : Type} (l : List α) (x y : α) : (l ++ [x]).set l.length y = l ++ [y] := by
  simp

theorem concat_erase {α : Type} (l : List α) (x : α) : (l ++ [x]).eraseIdx l.length = l := by
  rw [List.eraseIdx_append_of_length_le (le_refl _)]
  simp

/-- On a connection whose socket handle is set and whose queues have room,
`Close` returns with -1 and the nil sentinel appended, the socket closed and
`connected` false. -/
theorem close_effect (s : Sys) (h : Nat) (hp : s.panicked = false) (hc : s.c.conn = some h)
    (hr : s.c.reconnectChan.length < reconnectChanCap)
    (hw : s.c.writeChan.length < writeChanCap) :
    tsdbConn.Close s = .returned
      { s with c := { s.c with reconnectChan := s.c.reconnectChan ++ [-1]
                               writeChan := s.c.writeChan ++ [none]
                               connected := false }
               socks := closeAt s.socks h
               events := s.events ++ [.sockClose h] } := by
  simp [tsdbConn.Close, call, step, hp, closeStep, chanSend, hr, hw, hc, concat_set, concat_erase]

end Tsdb
